import Mathlib

/-!
Verification development for the `chorus` prayer-marketplace program
(`programs/chorus-prayers/src/lib.rs`).

The Rust source is an Anchor (Solana) on-chain program.  We embed it
shallowly: every instruction handler becomes a Lean function from a ledger
state `St` to a pair of an optional transaction error and the state at the
exit point of the handler.  A failed transaction is rolled back by the
runtime, which `exec` models by discarding the post-state of a failed step.

Machine integers (`u64`, `u8`) are modelled as `Nat`; every place the source
performs a `checked_add`/`checked_sub` with `.unwrap()` is modelled with an
explicit bound check whose failure is the non-program abort `TxError.system`
(an `unwrap` panic aborts the whole transaction).  `i64` timestamps are
modelled as `Int`; the source's `checked_add` on timestamps cannot overflow
for the bounded TTL values involved and is modelled as exact `Int` addition.
Pubkeys are abstracted as naturals with `0` for `Pubkey::default()`.
Account lookups (PDA resolution performed by the Anchor `#[derive(Accounts)]`
contexts before the handler body runs) are modelled as list lookups; an
`init` constraint on an already-existing account fails with
`TxError.accountInUse`, a lookup of a missing account with
`TxError.accountNotFound`, and `has_one` / `constraint` clauses with the
program error the source attaches to them.

Lamport balances of wallets are a function `Pubkey → Nat`; the lamports a
prayer account holds on top of its rent (the escrowed bounty) are the
`escrow` field of the state.  Rent bookkeeping is out of scope.
-/

namespace ChorusPrayers

/-- Wallet and account addresses (Solana `Pubkey`), abstracted as naturals. -/
abbrev Pubkey := Nat

/-- Model of `Pubkey::default()` (the all-zero key). -/
def pubkeyDefault : Pubkey := 0

/-- Source constant `CLAIM_TIMEOUT_SECONDS : i64 = 3600` — claim timeout of
one hour, after which anyone can unclaim a stale claim. -/
def CLAIM_TIMEOUT_SECONDS : Int := 3600

/-- Source constant `MAX_CLAIMERS_LIMIT : u8 = 10` — maximum number of
collaborators per prayer. -/
def MAX_CLAIMERS_LIMIT : Nat := 10

/-- Largest value of a `u64`. -/
def U64_MAX : Nat := 18446744073709551615

/-- Largest value of a `u8`. -/
def U8_MAX : Nat := 255

/-- Model of `u64::checked_add`: `none` exactly when the sum would overflow. -/
def checked_add_u64 (a b : Nat) : Option Nat :=
  if a + b ≤ U64_MAX then some (a + b) else none

/-- Model of `u8::checked_add`: `none` exactly when the sum would overflow. -/
def checked_add_u8 (a b : Nat) : Option Nat :=
  if a + b ≤ U8_MAX then some (a + b) else none

/-- Enum `PrayerType` from the source. -/
inductive PrayerType where
  | Knowledge
  | Compute
  | Review
  | Signal
  | Collaboration
deriving DecidableEq

/-- Enum `PrayerStatus` from the source.  `Expired` is declared in the source
but never assigned by any instruction. -/
inductive PrayerStatus where
  | Open
  | Active
  | Fulfilled
  | Confirmed
  | Expired
  | Cancelled
deriving DecidableEq

/-- Account `PrayerChain` — the global protocol singleton. -/
structure PrayerChain where
  authority : Pubkey
  total_prayers : Nat
  total_answered : Nat
  total_agents : Nat
deriving DecidableEq

/-- Account `Agent` — agent identity and reputation. -/
structure Agent where
  wallet : Pubkey
  name : String
  skills : String
  encryption_key : List Nat
  prayers_posted : Nat
  prayers_answered : Nat
  prayers_confirmed : Nat
  reputation : Nat
  registered_at : Int
deriving DecidableEq

/-- Source bound `Agent::MAX_NAME = 32`. -/
def Agent.MAX_NAME : Nat := 32

/-- Source bound `Agent::MAX_SKILLS = 256`. -/
def Agent.MAX_SKILLS : Nat := 256

/-- The all-zero 32-byte array `[0u8; 32]`. -/
def zeroKey : List Nat := List.replicate 32 0

/-- Account `Prayer` — one record per posted task. -/
structure Prayer where
  id : Nat
  requester : Pubkey
  prayer_type : PrayerType
  content_hash : List Nat
  reward_lamports : Nat
  status : PrayerStatus
  max_claimers : Nat
  num_claimers : Nat
  answerer : Pubkey
  answer_hash : List Nat
  created_at : Int
  expires_at : Int
  fulfilled_at : Int
deriving DecidableEq

/-- Account `Claim` — one per claimer per prayer. -/
structure Claim where
  prayer_id : Nat
  claimer : Pubkey
  content_delivered : Bool
  claimed_at : Int
deriving DecidableEq

/-- Enum `PrayerError` from the source (`#[error_code]`). -/
inductive PrayerError where
  | NameTooLong
  | SkillsTooLong
  | InvalidTTL
  | NotOpen
  | NotClaimed
  | NotFulfilled
  | Expired
  | CannotClaimOwn
  | NotClaimer
  | NotRequester
  | HasClaimers
  | CannotCancel
  | CannotClose
  | InvalidEncryptionKey
  | AlreadyDelivered
  | InvalidMaxClaimers
deriving DecidableEq

/-- Outcome of a transaction attempt: a program error raised by a `require!`
(or by an Anchor constraint carrying a custom error), an Anchor account
resolution failure, or a non-program abort (failed CPI transfer or an
`unwrap` panic on checked arithmetic). -/
inductive TxError where
  | prog (e : PrayerError)
  | accountNotFound
  | accountInUse
  | system
deriving DecidableEq

/-- Ledger state: the protocol singleton, the agent directory, one prayer
slot together with its claim sub-ledger, wallet balances, and the lamports
escrowed in the prayer account. -/
structure St where
  chain : PrayerChain
  agents : List Agent
  prayer : Option Prayer
  claims : List Claim
  balances : Pubkey → Nat
  escrow : Nat

/-- Lookup of the `Agent` PDA keyed by a wallet. -/
def findAgent (st : St) (w : Pubkey) : Option Agent :=
  st.agents.find? (fun a => a.wallet == w)

/-- Lookup of the `Claim` PDA keyed by prayer id and claimer. -/
def findClaim (st : St) (i : Nat) (c : Pubkey) : Option Claim :=
  st.claims.find? (fun cl => cl.prayer_id == i && cl.claimer == c)

/-- Replace the stored `Agent` record for a wallet. -/
def putAgent (st : St) (w : Pubkey) (a : Agent) : St :=
  { st with agents := st.agents.map (fun x => if x.wallet == w then a else x) }

/-- Credit `amt` lamports to wallet `w`. -/
def credit (bal : Pubkey → Nat) (w : Pubkey) (amt : Nat) : Pubkey → Nat :=
  fun k => if k = w then bal k + amt else bal k

/-- Instruction `register_agent`.  The Anchor context first initializes the
`agent` PDA keyed by the wallet (failing if it already exists), then the
body checks the name/skills bounds and that the supplied encryption key is
not all-zero, writes the record and bumps `total_agents`. -/
def register_agent (st : St) (wallet : Pubkey) (name skills : String)
    (encryption_key : List Nat) (now : Int) : Option TxError × St :=
  match findAgent st wallet with
  | some _ => (some .accountInUse, st)
  | none =>
    if name.utf8ByteSize ≤ Agent.MAX_NAME then
      if skills.utf8ByteSize ≤ Agent.MAX_SKILLS then
        if encryption_key ≠ zeroKey then
          let agent : Agent :=
            { wallet := wallet, name := name, skills := skills
              encryption_key := encryption_key
              prayers_posted := 0, prayers_answered := 0, prayers_confirmed := 0
              reputation := 0, registered_at := now }
          let st1 := { st with agents := st.agents ++ [agent] }
          match checked_add_u64 st.chain.total_agents 1 with
          | none => (some .system, st1)
          | some t =>
            (none, { st1 with chain := { st1.chain with total_agents := t } })
        else (some (.prog .InvalidEncryptionKey), st)
      else (some (.prog .SkillsTooLong), st)
    else (some (.prog .NameTooLong), st)

/-- Instruction `post_prayer`.  The context resolves the requester's `Agent`
PDA and initializes a fresh `Prayer` PDA at id `total_prayers`; the body
checks the TTL and `max_claimers` bounds, writes the prayer record in
status `Open`, escrows the reward out of the requester's balance via a
system-program transfer, and bumps `total_prayers` and the requester's
`prayers_posted`. -/
def post_prayer (st : St) (requester : Pubkey) (prayer_type : PrayerType)
    (content_hash : List Nat) (reward_lamports : Nat) (ttl_seconds : Int)
    (max_claimers : Nat) (now : Int) : Option TxError × St :=
  match findAgent st requester with
  | none => (some .accountNotFound, st)
  | some agent =>
    match st.prayer with
    | some _ => (some .accountInUse, st)
    | none =>
      if 0 < ttl_seconds ∧ ttl_seconds ≤ 604800 then
        if 1 ≤ max_claimers ∧ max_claimers ≤ MAX_CLAIMERS_LIMIT then
          let prayer_id := st.chain.total_prayers
          let p : Prayer :=
            { id := prayer_id, requester := requester, prayer_type := prayer_type
              content_hash := content_hash, reward_lamports := reward_lamports
              status := .Open, max_claimers := max_claimers, num_claimers := 0
              answerer := pubkeyDefault, answer_hash := List.replicate 32 0
              created_at := now, expires_at := now + ttl_seconds
              fulfilled_at := 0 }
          let st1 := { st with prayer := some p, escrow := 0 }
          -- escrow transfer (only when the reward is positive)
          match
            (if 0 < reward_lamports then
              if reward_lamports ≤ st1.balances requester then
                some { st1 with
                        balances := fun k =>
                          if k = requester then st1.balances k - reward_lamports
                          else st1.balances k
                        escrow := reward_lamports }
              else none
            else some st1) with
          | none => (some .system, st1)
          | some st2 =>
            match checked_add_u64 st2.chain.total_prayers 1 with
            | none => (some .system, st2)
            | some tp =>
              let st3 := { st2 with chain := { st2.chain with total_prayers := tp } }
              match checked_add_u64 agent.prayers_posted 1 with
              | none => (some .system, st3)
              | some pp =>
                (none, putAgent st3 requester { agent with prayers_posted := pp })
        else (some (.prog .InvalidMaxClaimers), st)
      else (some (.prog .InvalidTTL), st)

/-- Instruction `claim_prayer`.  The context resolves the prayer, initializes
a fresh `Claim` PDA keyed by `(prayer.id, claimer)` (failing if that claimer
already holds one) and resolves the claimer's `Agent` PDA; the body requires
status `Open`, `now < expires_at` and that the claimer is not the requester,
then writes the claim, bumps `num_claimers` and moves to `Active` when all
slots are filled. -/
def claim_prayer (st : St) (claimer : Pubkey) (now : Int) : Option TxError × St :=
  match st.prayer with
  | none => (some .accountNotFound, st)
  | some prayer =>
    match findClaim st prayer.id claimer with
    | some _ => (some .accountInUse, st)
    | none =>
      match findAgent st claimer with
      | none => (some .accountNotFound, st)
      | some _ =>
        if prayer.status = .Open then
          if now < prayer.expires_at then
            if prayer.requester ≠ claimer then
              let claim : Claim :=
                { prayer_id := prayer.id, claimer := claimer
                  content_delivered := false, claimed_at := now }
              let st1 := { st with claims := st.claims ++ [claim] }
              match checked_add_u8 prayer.num_claimers 1 with
              | none => (some .system, st1)
              | some n =>
                let status1 :=
                  if prayer.max_claimers ≤ n then PrayerStatus.Active
                  else prayer.status
                (none, { st1 with
                          prayer := some { prayer with
                                            num_claimers := n, status := status1 } })
            else (some (.prog .CannotClaimOwn), st)
          else (some (.prog .Expired), st)
        else (some (.prog .NotOpen), st)

/-- Instruction `deliver_content`.  The context enforces `has_one = requester`
(error `NotRequester`) and resolves the claim PDA for the targeted claimer;
the body requires status `Open` or `Active`, re-checks the requester, and
requires the content not to have been delivered yet, then marks it
delivered.  The encrypted payload itself is only relayed through the
notification channel and is not modelled. -/
def deliver_content (st : St) (requester_signer : Pubkey) (claimer : Pubkey) :
    Option TxError × St :=
  match st.prayer with
  | none => (some .accountNotFound, st)
  | some prayer =>
    if prayer.requester = requester_signer then
      match findClaim st prayer.id claimer with
      | none => (some .accountNotFound, st)
      | some claim =>
        if prayer.status = .Open ∨ prayer.status = .Active then
          if prayer.requester = requester_signer then
            if claim.content_delivered = false then
              (none, { st with
                        claims := st.claims.map (fun c =>
                          if c.prayer_id == prayer.id && c.claimer == claimer then
                            { c with content_delivered := true }
                          else c) })
            else (some (.prog .AlreadyDelivered), st)
          else (some (.prog .NotRequester), st)
        else (some (.prog .NotClaimed), st)
    else (some (.prog .NotRequester), st)

/-- Instruction `answer_prayer`.  The context resolves the prayer, the claim
PDA keyed by `(prayer.id, answerer)` (which proves the answerer holds a live
claim) and the answerer's `Agent` PDA; the body requires status `Open` or
`Active` and `now < expires_at`, then moves the prayer to `Fulfilled`,
records the answerer, answer hash and `fulfilled_at`, bumps the answerer's
`prayers_answered` and reputation, and the chain's `total_answered`. -/
def answer_prayer (st : St) (answerer : Pubkey) (answer_hash : List Nat)
    (now : Int) : Option TxError × St :=
  match st.prayer with
  | none => (some .accountNotFound, st)
  | some prayer =>
    match findClaim st prayer.id answerer with
    | none => (some .accountNotFound, st)
    | some _ =>
      match findAgent st answerer with
      | none => (some .accountNotFound, st)
      | some agent =>
        if prayer.status = .Open ∨ prayer.status = .Active then
          if now < prayer.expires_at then
            let st1 := { st with
                          prayer := some { prayer with
                                            status := .Fulfilled
                                            answerer := answerer
                                            answer_hash := answer_hash
                                            fulfilled_at := now } }
            match checked_add_u64 agent.prayers_answered 1 with
            | none => (some .system, st1)
            | some pa =>
              let st2 := putAgent st1 answerer { agent with prayers_answered := pa }
              match checked_add_u64 agent.reputation 10 with
              | none => (some .system, st2)
              | some rep =>
                let st3 := putAgent st2 answerer
                  { agent with prayers_answered := pa, reputation := rep }
                match checked_add_u64 st.chain.total_answered 1 with
                | none => (some .system, st3)
                | some ta =>
                  (none, { st3 with chain := { st3.chain with total_answered := ta } })
          else (some (.prog .Expired), st)
        else (some (.prog .NotClaimed), st)

/-- Bounty distribution loop of `confirm_prayer` over the caller-supplied
remaining accounts.  Mirrors the source loop: break as soon as paying one
more share would push the running total over the recorded reward; when the
share is positive, move it from the prayer's lamports to the account with
checked arithmetic (a failed check is an `unwrap` panic, `TxError.system`).
Returns the error (if any), the prayer's remaining escrow, the balances and
the total distributed. -/
def distribute_loop (per reward : Nat) :
    List Pubkey → Nat → (Pubkey → Nat) → Nat →
      Option TxError × Nat × (Pubkey → Nat) × Nat
  | [], esc, bal, dist => (none, esc, bal, dist)
  | a :: rest, esc, bal, dist =>
    if reward < dist + per then (none, esc, bal, dist)
    else if 0 < per then
      if per ≤ esc then
        if bal a + per ≤ U64_MAX then
          distribute_loop per reward rest (esc - per) (credit bal a per) (dist + per)
        else (some .system, esc - per, bal, dist)
      else (some .system, esc, bal, dist)
    else distribute_loop per reward rest esc bal dist

/-- Instruction `confirm_prayer`.  The context enforces `has_one = requester`
(error `NotRequester`) and resolves the answerer's `Agent` PDA; the body
requires status `Fulfilled`, re-checks the requester, moves the prayer to
`Confirmed`, computes `reward_per_claimer = reward_lamports / num_claimers`
(zero when either is zero), distributes it over the caller-supplied
remaining accounts, and bumps the answerer's `prayers_confirmed` and
reputation. -/
def confirm_prayer (st : St) (requester_signer : Pubkey)
    (remaining : List Pubkey) : Option TxError × St :=
  match st.prayer with
  | none => (some .accountNotFound, st)
  | some prayer =>
    if prayer.requester = requester_signer then
      match findAgent st prayer.answerer with
      | none => (some .accountNotFound, st)
      | some agent =>
        if prayer.status = .Fulfilled then
          if prayer.requester = requester_signer then
            let st1 := { st with prayer := some { prayer with status := .Confirmed } }
            let num_claimers := prayer.num_claimers
            let reward_per_claimer :=
              if 0 < prayer.reward_lamports ∧ 0 < num_claimers then
                prayer.reward_lamports / num_claimers
              else 0
            match distribute_loop reward_per_claimer prayer.reward_lamports
                remaining st1.escrow st1.balances 0 with
            | (some e, esc1, bal1, _) =>
              (some e, { st1 with escrow := esc1, balances := bal1 })
            | (none, esc1, bal1, _) =>
              let st2 := { st1 with escrow := esc1, balances := bal1 }
              match checked_add_u64 agent.prayers_confirmed 1 with
              | none => (some .system, st2)
              | some pc =>
                let st3 := putAgent st2 prayer.answerer
                  { agent with prayers_confirmed := pc }
                match checked_add_u64 agent.reputation 5 with
                | none => (some .system, st3)
                | some rep =>
                  (none, putAgent st3 prayer.answerer
                    { agent with prayers_confirmed := pc, reputation := rep })
          else (some (.prog .NotRequester), st)
        else (some (.prog .NotFulfilled), st)
    else (some (.prog .NotRequester), st)

/-- Instruction `cancel_prayer`.  The context enforces `has_one = requester`
(error `NotRequester`); the body requires status `Open` (error
`CannotCancel`), `num_claimers == 0` (error `HasClaimers`), re-checks the
requester, moves the prayer to `Cancelled` and refunds the full escrowed
reward to the requester with checked lamport arithmetic. -/
def cancel_prayer (st : St) (requester_signer : Pubkey) : Option TxError × St :=
  match st.prayer with
  | none => (some .accountNotFound, st)
  | some prayer =>
    if prayer.requester = requester_signer then
      if prayer.status = .Open then
        if prayer.num_claimers = 0 then
          if prayer.requester = requester_signer then
            let st1 := { st with prayer := some { prayer with status := .Cancelled } }
            if 0 < prayer.reward_lamports then
              if prayer.reward_lamports ≤ st1.escrow then
                match checked_add_u64 (st1.balances requester_signer)
                    prayer.reward_lamports with
                | none =>
                  (some .system, { st1 with escrow := st1.escrow - prayer.reward_lamports })
                | some _ =>
                  (none, { st1 with
                            escrow := st1.escrow - prayer.reward_lamports
                            balances := credit st1.balances requester_signer
                              prayer.reward_lamports })
              else (some .system, st1)
            else (none, st1)
          else (some (.prog .NotRequester), st)
        else (some (.prog .HasClaimers), st)
      else (some (.prog .CannotCancel), st)
    else (some (.prog .NotRequester), st)

/-- Instruction `unclaim_prayer`.  The context resolves the prayer and the
claim PDA for the targeted claimer, and its `close = claimer_wallet`
constraint (with the `claimer_wallet.key() == claim.claimer` check) closes
the claim account back to its claimer.  The body requires status `Open` or
`Active` (error `NotClaimed`) and that the caller is the claimer or the
claim is older than `CLAIM_TIMEOUT_SECONDS` (error `NotClaimer`), then
decrements `num_claimers` with checked arithmetic and reverts `Active` to
`Open`.  The claim record is destroyed by the close constraint. -/
def unclaim_prayer (st : St) (caller : Pubkey) (claimer : Pubkey) (now : Int) :
    Option TxError × St :=
  match st.prayer with
  | none => (some .accountNotFound, st)
  | some prayer =>
    match findClaim st prayer.id claimer with
    | none => (some .accountNotFound, st)
    | some claim =>
      if prayer.status = .Open ∨ prayer.status = .Active then
        let is_claimed_by_caller := claim.claimer = caller
        let claim_stale := claim.claimed_at + CLAIM_TIMEOUT_SECONDS < now
        if is_claimed_by_caller ∨ claim_stale then
          if 1 ≤ prayer.num_claimers then
            let p1 : Prayer := { prayer with num_claimers := prayer.num_claimers - 1 }
            let p2 := if p1.status = .Active then { p1 with status := .Open } else p1
            (none, { st with
                      prayer := some p2
                      claims := st.claims.eraseP (fun c =>
                        c.prayer_id == prayer.id && c.claimer == claimer) })
          else (some .system, st)
        else (some (.prog .NotClaimer), st)
      else (some (.prog .NotClaimed), st)

/-- Instruction `close_prayer`.  The context enforces `has_one = requester`
(error `NotRequester`) and carries `close = requester`, which on success
sweeps the prayer account's remaining lamports to the requester and destroys
the record.  The body allows closing exactly when the status is terminal
(`Confirmed` or `Cancelled`) or when `now > expires_at` and the status is
`Open` or `Active`; in the expired case it first explicitly refunds
`reward_lamports` with checked arithmetic. -/
def close_prayer (st : St) (requester_signer : Pubkey) (now : Int) :
    Option TxError × St :=
  match st.prayer with
  | none => (some .accountNotFound, st)
  | some prayer =>
    if prayer.requester = requester_signer then
      let is_terminal := prayer.status = .Confirmed ∨ prayer.status = .Cancelled
      let is_expired := prayer.expires_at < now ∧
        (prayer.status = .Open ∨ prayer.status = .Active)
      if is_terminal ∨ is_expired then
        match
          (if is_expired ∧ 0 < prayer.reward_lamports then
            if prayer.reward_lamports ≤ st.escrow then
              if st.balances requester_signer + prayer.reward_lamports ≤ U64_MAX then
                some { st with
                        escrow := st.escrow - prayer.reward_lamports
                        balances := credit st.balances requester_signer
                          prayer.reward_lamports }
              else none
            else none
          else some st) with
        | none => (some .system, st)
        | some st1 =>
          -- `close = requester`: sweep the account's remaining lamports and
          -- destroy the Prayer record
          (none, { st1 with
                    prayer := none
                    escrow := 0
                    balances := credit st1.balances requester_signer st1.escrow })
      else (some (.prog .CannotClose), st)
    else (some (.prog .NotRequester), st)

/-- One instruction invocation together with its arguments and the clock
value the runtime supplies to it. -/
inductive Op where
  | register (wallet : Pubkey) (name skills : String) (key : List Nat) (now : Int)
  | post (requester : Pubkey) (prayer_type : PrayerType) (content_hash : List Nat)
      (reward : Nat) (ttl : Int) (max_claimers : Nat) (now : Int)
  | claim (claimer : Pubkey) (now : Int)
  | deliver (requester claimer : Pubkey)
  | answer (answerer : Pubkey) (answer_hash : List Nat) (now : Int)
  | confirm (requester : Pubkey) (accounts : List Pubkey)
  | cancel (requester : Pubkey)
  | unclaim (caller claimer : Pubkey) (now : Int)
  | close (requester : Pubkey) (now : Int)

/-- Dispatch one operation. -/
def step (st : St) (op : Op) : Option TxError × St :=
  match op with
  | .register w n s k t => register_agent st w n s k t
  | .post r pt ch rw ttl mc t => post_prayer st r pt ch rw ttl mc t
  | .claim c t => claim_prayer st c t
  | .deliver r c => deliver_content st r c
  | .answer a h t => answer_prayer st a h t
  | .confirm r accs => confirm_prayer st r accs
  | .cancel r => cancel_prayer st r
  | .unclaim ca cl t => unclaim_prayer st ca cl t
  | .close r t => close_prayer st r t

/-- Committed effect of one transaction: a failed transaction is rolled back
by the runtime, so the pre-state survives. -/
def exec (st : St) (op : Op) : St :=
  match step st op with
  | (none, st1) => st1
  | (some _, _) => st

/-- Committed effect of a sequence of transactions. -/
def execAll (st : St) (ops : List Op) : St :=
  ops.foldl exec st

/-- Claims recorded for the prayer with the given id. -/
def claimsFor (st : St) (i : Nat) : List Claim :=
  st.claims.filter (fun c => c.prayer_id == i)

/-- State invariant: every claim belongs to an already-assigned prayer id,
and the live prayer (when present) has an assigned id, claimer bounds
`1 ≤ max_claimers ≤ 10` and `num_claimers ≤ max_claimers`, status `Open`
only while below capacity, status `Active` exactly at capacity, one live
claim record per counted claimer, and never the (unreachable) stored status
`Expired`. -/
def Inv (st : St) : Prop :=
  (∀ c ∈ st.claims, c.prayer_id < st.chain.total_prayers) ∧
  (∀ p, st.prayer = some p →
    p.id < st.chain.total_prayers ∧
    1 ≤ p.max_claimers ∧ p.max_claimers ≤ 10 ∧
    p.num_claimers ≤ p.max_claimers ∧
    (p.status = .Open → p.num_claimers < p.max_claimers) ∧
    (p.status = .Active → p.num_claimers = p.max_claimers) ∧
    (claimsFor st p.id).length = p.num_claimers ∧
    p.status ≠ .Expired)

/-- Facts frozen once a prayer has moved past `Active`: the prayer id is
assigned, its recorded claim set and claimer count, and that its status
stays past `Active` while the record lives. -/
def Frozen (pid n0 : Nat) (cs : List Claim) (st : St) : Prop :=
  Inv st ∧
  pid < st.chain.total_prayers ∧
  claimsFor st pid = cs ∧
  (∀ p, st.prayer = some p → p.id = pid →
    (p.status = .Fulfilled ∨ p.status = .Confirmed ∨ p.status = .Cancelled) ∧
    p.num_claimers = n0)

/-- Concrete scenario: everyone starts with 1000 lamports. -/
def witBal : Pubkey → Nat := fun _ => 1000

/-- Concrete scenario: freshly initialized ledger. -/
def witSt0 : St :=
  { chain := { authority := 9, total_prayers := 0, total_answered := 0, total_agents := 0 }
    agents := [], prayer := none, claims := [], balances := witBal, escrow := 0 }

/-- Concrete scenario: four agents register, agent 1 posts a prayer with
reward 100, TTL 1000 and three claimer slots, agents 2, 3 and 4 claim it,
and agent 2 answers it. -/
def witOps : List Op :=
  [ .register 1 "r" "s" (List.replicate 32 1) 0
  , .register 2 "a" "s" (List.replicate 32 2) 0
  , .register 3 "b" "s" (List.replicate 32 3) 0
  , .register 4 "c" "s" (List.replicate 32 4) 0
  , .post 1 .Knowledge [] 100 1000 3 0
  , .claim 2 1
  , .claim 3 1
  , .claim 4 1
  , .answer 2 [] 2 ]

/-- Concrete scenario state right after the prayer is posted. -/
def witStPosted : St := execAll witSt0 (witOps.take 5)

/-- Concrete scenario state with one claim (by agent 2, at time 1) held. -/
def witStOneClaim : St := execAll witSt0 (witOps.take 6)

/-- Concrete scenario state at full capacity (`Active`). -/
def witStActive : St := execAll witSt0 (witOps.take 8)

/-- Concrete scenario state after the answer (`Fulfilled`). -/
def witStFulfilled : St := execAll witSt0 witOps

/-- The prayer record of the fulfilled scenario state. -/
def witPrayerF : Prayer :=
  (witStFulfilled.prayer).getD
    { id := 0, requester := 0, prayer_type := .Knowledge, content_hash := []
      reward_lamports := 0, status := .Open, max_claimers := 1, num_claimers := 0
      answerer := 0, answer_hash := [], created_at := 0, expires_at := 0
      fulfilled_at := 0 }

/-- The claim record held by agent 2 in the one-claim scenario state. -/
def witClaim2 : Claim :=
  (findClaim witStOneClaim 0 2).getD
    { prayer_id := 0, claimer := 0, content_delivered := false, claimed_at := 0 }

/-- Result of confirming the fulfilled scenario prayer with the three
claimer wallets supplied. -/
def witConfirmed : St := (confirm_prayer witStFulfilled 1 [2, 3, 4]).2

/-- Scenario state with the four agents registered and no prayer posted. -/
def witStReg : St := execAll witSt0 (witOps.take 4)

/-- The prayer record of the freshly posted scenario state. -/
def witPrayerP : Prayer :=
  (witStPosted.prayer).getD
    { id := 0, requester := 0, prayer_type := .Knowledge, content_hash := []
      reward_lamports := 0, status := .Open, max_claimers := 1, num_claimers := 0
      answerer := 0, answer_hash := [], created_at := 0, expires_at := 0
      fulfilled_at := 0 }

/-- The prayer record of the one-claim scenario state. -/
def witPrayerOne : Prayer :=
  (witStOneClaim.prayer).getD
    { id := 0, requester := 0, prayer_type := .Knowledge, content_hash := []
      reward_lamports := 0, status := .Open, max_claimers := 1, num_claimers := 0
      answerer := 0, answer_hash := [], created_at := 0, expires_at := 0
      fulfilled_at := 0 }

/-- The agent record of wallet 2 in the fulfilled scenario state. -/
def witAgent2 : Agent :=
  (findAgent witStFulfilled 2).getD
    { wallet := 0, name := "", skills := "", encryption_key := []
      prayers_posted := 0, prayers_answered := 0, prayers_confirmed := 0
      reputation := 0, registered_at := 0 }

/-! Helper lemmas about list bookkeeping shared by several claims. -/

theorem length_filter_eraseP {α : Type} (q r : α → Bool)
    (hqr : ∀ x, q x = true → r x = true) :
    ∀ (l : List α) (c : α), l.find? q = some c →
      ((l.eraseP q).filter r).length + 1 = (l.filter r).length := by
  intro l
  induction l with
  | nil => intro c h; simp at h
  | cons a t ih =>
    intro c h
    by_cases hq : q a
    · simp [List.eraseP_cons_of_pos hq, List.filter_cons, hqr a hq]
    · rw [List.find?_cons_of_neg _ hq] at h
      rw [List.eraseP_cons_of_neg hq, List.filter_cons, List.filter_cons]
      by_cases hr : r a
      · have := ih c h
        simp only [hr, if_true]
        simp only [List.length_cons]
        omega
      · simpa [hr] using ih c h

theorem filter_eraseP_of_disjoint {α : Type} (q r : α → Bool)
    (hqr : ∀ x, q x = true → r x = false) :
    ∀ l : List α, (l.eraseP q).filter r = l.filter r := by
  intro l
  induction l with
  | nil => simp
  | cons a t ih =>
    by_cases hq : q a
    · rw [List.eraseP_cons_of_pos hq, List.filter_cons, if_neg (by simp [hqr a hq])]
    · rw [List.eraseP_cons_of_neg hq, List.filter_cons, List.filter_cons, ih]

theorem filter_map_of_fix {α : Type} (f : α → α) (r : α → Bool)
    (h1 : ∀ x, r x = true → f x = x) (h2 : ∀ x, r (f x) = r x) :
    ∀ l : List α, (l.map f).filter r = l.filter r := by
  intro l
  induction l with
  | nil => simp
  | cons a t ih =>
    by_cases hr : r a
    · simp [List.filter_cons, h2 a, hr, ih, h1 a hr]
    · simp [List.filter_cons, h2 a, hr, ih]

theorem length_filter_map {α : Type} (f : α → α) (r : α → Bool)
    (h2 : ∀ x, r (f x) = r x) :
    ∀ l : List α, ((l.map f).filter r).length = (l.filter r).length := by
  intro l
  induction l with
  | nil => simp
  | cons a t ih =>
    by_cases hr : r a <;> simp [List.filter_cons, h2 a, hr, ih]

/-! Lemmas about the bounty distribution loop. -/

theorem distribute_loop_total_le (per reward : Nat) :
    ∀ (accts : List Pubkey) (esc : Nat) (bal : Pubkey → Nat) (dist : Nat),
      dist ≤ reward →
      (distribute_loop per reward accts esc bal dist).2.2.2 ≤ reward := by
  intro accts
  induction accts with
  | nil => intro esc bal dist h; simpa [distribute_loop] using h
  | cons a rest ih =>
    intro esc bal dist h
    unfold distribute_loop
    by_cases h1 : reward < dist + per
    · simpa [h1] using h
    · by_cases h2 : 0 < per
      · by_cases h3 : per ≤ esc
        · by_cases h4 : bal a + per ≤ U64_MAX
          · simpa [h1, h2, h3, h4] using ih _ _ _ (by omega)
          · simpa [h1, h2, h3, h4] using h
        · simpa [h1, h2, h3] using h
      · simpa [h1, h2] using ih _ _ _ h

theorem distribute_loop_conserve (per reward : Nat) :
    ∀ (accts : List Pubkey) (esc : Nat) (bal : Pubkey → Nat) (dist : Nat),
      (distribute_loop per reward accts esc bal dist).1 = none →
      (distribute_loop per reward accts esc bal dist).2.1 +
        (distribute_loop per reward accts esc bal dist).2.2.2 = esc + dist := by
  intro accts
  induction accts with
  | nil => intro esc bal dist _; simp [distribute_loop]
  | cons a rest ih =>
    intro esc bal dist h
    unfold distribute_loop at h ⊢
    by_cases h1 : reward < dist + per
    · simp [h1]
    · by_cases h2 : 0 < per
      · by_cases h3 : per ≤ esc
        · by_cases h4 : bal a + per ≤ U64_MAX
          · rw [if_neg h1, if_pos h2, if_pos h3, if_pos h4] at h ⊢
            have := ih (esc - per) (credit bal a per) (dist + per) h
            omega
          · rw [if_neg h1, if_pos h2, if_pos h3, if_neg h4] at h
            simp at h
        · rw [if_neg h1, if_pos h2, if_neg h3] at h
          simp at h
      · rw [if_neg h1, if_neg h2] at h ⊢
        exact ih esc bal dist h

theorem distribute_loop_multiple (per reward : Nat) :
    ∀ (accts : List Pubkey) (esc : Nat) (bal : Pubkey → Nat) (dist : Nat),
      ∃ k, (distribute_loop per reward accts esc bal dist).2.2.2 = dist + per * k := by
  intro accts
  induction accts with
  | nil => intro esc bal dist; exact ⟨0, by simp [distribute_loop]⟩
  | cons a rest ih =>
    intro esc bal dist
    unfold distribute_loop
    by_cases h1 : reward < dist + per
    · exact ⟨0, by simp [h1]⟩
    · by_cases h2 : 0 < per
      · by_cases h3 : per ≤ esc
        · by_cases h4 : bal a + per ≤ U64_MAX
          · obtain ⟨k, hk⟩ := ih (esc - per) (credit bal a per) (dist + per)
            refine ⟨k + 1, ?_⟩
            rw [if_neg h1, if_pos h2, if_pos h3, if_pos h4, hk]
            ring
          · exact ⟨0, by rw [if_neg h1, if_pos h2, if_pos h3, if_neg h4]; simp⟩
        · exact ⟨0, by rw [if_neg h1, if_pos h2, if_neg h3]; simp⟩
      · obtain ⟨k, hk⟩ := ih esc bal dist
        exact ⟨k, by rw [if_neg h1, if_neg h2, hk]⟩

theorem distribute_loop_balance (per reward : Nat) :
    ∀ (accts : List Pubkey) (esc : Nat) (bal : Pubkey → Nat) (dist : Nat) (w : Pubkey),
      ∃ j, (distribute_loop per reward accts esc bal dist).2.2.1 w = bal w + per * j := by
  intro accts
  induction accts with
  | nil => intro esc bal dist w; exact ⟨0, by simp [distribute_loop]⟩
  | cons a rest ih =>
    intro esc bal dist w
    unfold distribute_loop
    by_cases h1 : reward < dist + per
    · exact ⟨0, by simp [h1]⟩
    · by_cases h2 : 0 < per
      · by_cases h3 : per ≤ esc
        · by_cases h4 : bal a + per ≤ U64_MAX
          · obtain ⟨j, hj⟩ := ih (esc - per) (credit bal a per) (dist + per) w
            by_cases hw : w = a
            · refine ⟨j + 1, ?_⟩
              rw [if_neg h1, if_pos h2, if_pos h3, if_pos h4, hj]
              simp only [credit, if_pos hw]
              ring
            · refine ⟨j, ?_⟩
              rw [if_neg h1, if_pos h2, if_pos h3, if_pos h4, hj]
              simp only [credit, if_neg hw]
          · exact ⟨0, by rw [if_neg h1, if_pos h2, if_pos h3, if_neg h4]; simp⟩
        · exact ⟨0, by rw [if_neg h1, if_pos h2, if_neg h3]; simp⟩
      · obtain ⟨j, hj⟩ := ih esc bal dist w
        exact ⟨j, by rw [if_neg h1, if_neg h2, hj]⟩

theorem reward_per_claimer_eq_div (r n : Nat) :
    (if 0 < r ∧ 0 < n then r / n else 0) = r / n := by
  by_cases hr : 0 < r
  · by_cases hn : 0 < n
    · simp [hr, hn]
    · simp [hr, hn, Nat.eq_zero_of_not_pos hn]
  · simp [hr, Nat.eq_zero_of_not_pos hr]

/-- Inversion of a successful `confirm_prayer` call: the caller is the
requester, the prayer was `Fulfilled` and is now `Confirmed`, and the escrow
and balances of the result are those produced by the distribution loop run
with share `reward_lamports / num_claimers`. -/
theorem confirm_prayer_success_inv (st : St) (rq : Pubkey) (accts : List Pubkey)
    (p : Prayer) (hp : st.prayer = some p)
    (hok : (confirm_prayer st rq accts).1 = none) :
    p.requester = rq ∧ p.status = .Fulfilled ∧
    (distribute_loop (p.reward_lamports / p.num_claimers) p.reward_lamports
        accts st.escrow st.balances 0).1 = none ∧
    (confirm_prayer st rq accts).2.escrow =
      (distribute_loop (p.reward_lamports / p.num_claimers) p.reward_lamports
        accts st.escrow st.balances 0).2.1 ∧
    (confirm_prayer st rq accts).2.balances =
      (distribute_loop (p.reward_lamports / p.num_claimers) p.reward_lamports
        accts st.escrow st.balances 0).2.2.1 ∧
    (confirm_prayer st rq accts).2.prayer = some { p with status := .Confirmed } ∧
    (confirm_prayer st rq accts).2.claims = st.claims ∧
    (confirm_prayer st rq accts).2.chain.total_prayers =
      st.chain.total_prayers := by
  unfold confirm_prayer at hok ⊢
  simp only [hp] at hok ⊢
  by_cases hrq : p.requester = rq
  · simp only [if_pos hrq] at hok ⊢
    cases hA : findAgent st p.answerer with
    | none => simp [hA] at hok
    | some agent =>
      simp only [hA] at hok ⊢
      by_cases hst : p.status = PrayerStatus.Fulfilled
      · simp only [if_pos hst, reward_per_claimer_eq_div] at hok ⊢
        rcases hdl : distribute_loop (p.reward_lamports / p.num_claimers)
            p.reward_lamports accts st.escrow st.balances 0 with ⟨e, esc1, bal1, dist1⟩
        cases e with
        | some e0 => simp [hdl] at hok
        | none =>
          simp only [hdl] at hok ⊢
          cases hc1 : checked_add_u64 agent.prayers_confirmed 1 with
          | none => simp [hc1] at hok
          | some pc =>
            simp only [hc1] at hok ⊢
            cases hc2 : checked_add_u64 agent.reputation 5 with
            | none => simp [hc2] at hok
            | some rep =>
              simp only [hc2] at hok ⊢
              refine ⟨hrq, hst, ?_, ?_, ?_, ?_⟩ <;> simp [putAgent, hdl]
      · simp [if_neg hst] at hok
  · simp [if_neg hrq] at hok

/-- C1: for every `confirm_prayer` call on a `Fulfilled` prayer by its
requester that succeeds, every payout is an exact multiple of
`reward_lamports / num_claimers` (truncating division) — in particular each
recipient's balance grows by a whole number of such shares — and the total
amount paid out (the decrease of the prayer's escrowed balance) never
exceeds the `reward_lamports` recorded at posting. -/
theorem confirm_per_claimer_division_and_cap
    (st : St) (p : Prayer) (accts : List Pubkey)
    (hp : st.prayer = some p) (hf : p.status = PrayerStatus.Fulfilled)
    (hok : (confirm_prayer st p.requester accts).1 = none) :
    (confirm_prayer st p.requester accts).2.escrow ≤ st.escrow ∧
    (∃ k, st.escrow - (confirm_prayer st p.requester accts).2.escrow =
        (p.reward_lamports / p.num_claimers) * k) ∧
    st.escrow - (confirm_prayer st p.requester accts).2.escrow ≤ p.reward_lamports ∧
    (∀ w, ∃ j, (confirm_prayer st p.requester accts).2.balances w =
        st.balances w + (p.reward_lamports / p.num_claimers) * j) := by
  obtain ⟨-, -, hdln, hesc, hbal, -⟩ :=
    confirm_prayer_success_inv st p.requester accts p hp hok
  set per := p.reward_lamports / p.num_claimers with hper
  have hcons := distribute_loop_conserve per p.reward_lamports accts
    st.escrow st.balances 0 hdln
  have hle := distribute_loop_total_le per p.reward_lamports accts
    st.escrow st.balances 0 (Nat.zero_le _)
  obtain ⟨k, hk⟩ := distribute_loop_multiple per p.reward_lamports accts
    st.escrow st.balances 0
  refine ⟨by omega, ⟨k, by omega⟩, by omega, ?_⟩
  intro w
  obtain ⟨j, hj⟩ := distribute_loop_balance per p.reward_lamports accts
    st.escrow st.balances 0 w
  exact ⟨j, by rw [hbal, hj]⟩

/-- Witness for C1: in the concrete scenario (reward 100, three claimers),
confirming with the three claimer wallets pays 33 to each of them, 99 in
total, leaving 1 unit of residual escrow — and the general theorem applies
to this input. -/
theorem confirm_per_claimer_division_and_cap_witness :
    (witStFulfilled.prayer = some witPrayerF ∧
      witPrayerF.status = .Fulfilled ∧
      witPrayerF.reward_lamports = 100 ∧
      witPrayerF.num_claimers = 3 ∧
      witPrayerF.requester = 1 ∧
      (confirm_prayer witStFulfilled 1 [2, 3, 4]).1 = none ∧
      witStFulfilled.escrow = 100 ∧
      witConfirmed.escrow = 1 ∧
      witConfirmed.balances 2 = witStFulfilled.balances 2 + 33 ∧
      witConfirmed.balances 3 = witStFulfilled.balances 3 + 33 ∧
      witConfirmed.balances 4 = witStFulfilled.balances 4 + 33) ∧
    witStFulfilled.escrow - (confirm_prayer witStFulfilled 1 [2, 3, 4]).2.escrow ≤
      witPrayerF.reward_lamports := by
  refine ⟨by decide, ?_⟩
  have h := confirm_per_claimer_division_and_cap witStFulfilled witPrayerF
    [2, 3, 4] (by decide) (by decide) (by decide)
  have h1 : witPrayerF.requester = 1 := by decide
  rw [h1] at h
  exact h.2.2.1

/-- C9: the set of payees in `confirm_prayer` is exactly the caller-supplied
account list, not derived from the live Claim set — confirming a `Fulfilled`
prayer with an empty payee list still succeeds, moves the prayer to
`Confirmed` and pays out nothing, and for any supplied account list the
total paid out is capped by the recorded `reward_lamports`. -/
theorem confirm_payees_are_caller_supplied
    (st : St) (p : Prayer) (agent : Agent)
    (hp : st.prayer = some p) (hf : p.status = PrayerStatus.Fulfilled)
    (hA : findAgent st p.answerer = some agent)
    (hb1 : agent.prayers_confirmed + 1 ≤ U64_MAX)
    (hb2 : agent.reputation + 5 ≤ U64_MAX) :
    ((confirm_prayer st p.requester []).1 = none ∧
      (confirm_prayer st p.requester []).2.escrow = st.escrow ∧
      (confirm_prayer st p.requester []).2.balances = st.balances ∧
      (confirm_prayer st p.requester []).2.prayer =
        some { p with status := .Confirmed }) ∧
    (∀ accts, (confirm_prayer st p.requester accts).1 = none →
      st.escrow - (confirm_prayer st p.requester accts).2.escrow ≤
        p.reward_lamports) := by
  constructor
  · unfold confirm_prayer
    simp only [hp, if_pos rfl, hA, if_pos hf]
    simp [distribute_loop, checked_add_u64, hb1, hb2, putAgent]
  · intro accts hok
    obtain ⟨-, -, hdln, hesc, -, -⟩ :=
      confirm_prayer_success_inv st p.requester accts p hp hok
    have hcons := distribute_loop_conserve (p.reward_lamports / p.num_claimers)
      p.reward_lamports accts st.escrow st.balances 0 hdln
    have hle := distribute_loop_total_le (p.reward_lamports / p.num_claimers)
      p.reward_lamports accts st.escrow st.balances 0 (Nat.zero_le _)
    omega

/-- Witness for C9: in the concrete fulfilled scenario, confirming with an
empty payee list succeeds and pays nothing. -/
theorem confirm_payees_are_caller_supplied_witness :
    (confirm_prayer witStFulfilled 1 []).1 = none ∧
    (confirm_prayer witStFulfilled 1 []).2.escrow = witStFulfilled.escrow := by
  have h := confirm_payees_are_caller_supplied witStFulfilled witPrayerF witAgent2
    (by decide) (by decide) (by decide) (by decide) (by decide)
  have h1 : witPrayerF.requester = 1 := by decide
  rw [h1] at h
  exact ⟨h.1.1, h.1.2.1⟩

/-- C2 counterexample: the claim predicts that `close_prayer` on an expired
`Fulfilled` prayer succeeds (pre-terminal and past expiry), but the code's
expiry branch matches only `Open` and `Active`, so the call is rejected
with `CannotClose`. -/
theorem close_expired_fulfilled_rejected :
    witStFulfilled.prayer = some witPrayerF ∧
    witPrayerF.status = .Fulfilled ∧
    witPrayerF.requester = 1 ∧
    witPrayerF.expires_at = 1000 ∧
    (1000 : Int) < 2000 ∧
    (close_prayer witStFulfilled 1 2000).1 = some (.prog .CannotClose) := by
  decide

/-- C2 (amended): for the requester's `close_prayer` call, success holds
exactly when the status is terminal (`Confirmed`/`Cancelled`) or when the
status is `Open` or `Active` and `now > expires_at`; in the latter case the
escrowed balance (reward and residual) is refunded to the requester and the
record is destroyed; in every other state/time combination the call fails
with `CannotClose`.  A `Fulfilled` prayer can never be closed, expired or
not. -/
theorem close_prayer_characterization
    (st : St) (p : Prayer) (now : Int)
    (hp : st.prayer = some p)
    (hesc : p.reward_lamports ≤ st.escrow)
    (hbal : st.balances p.requester + st.escrow ≤ U64_MAX) :
    ((close_prayer st p.requester now).1 = none ↔
      (p.status = .Confirmed ∨ p.status = .Cancelled) ∨
      (p.expires_at < now ∧ (p.status = .Open ∨ p.status = .Active))) ∧
    ((p.expires_at < now ∧ (p.status = .Open ∨ p.status = .Active)) →
      (close_prayer st p.requester now).2.balances p.requester =
        st.balances p.requester + st.escrow ∧
      (close_prayer st p.requester now).2.prayer = none ∧
      (close_prayer st p.requester now).2.escrow = 0) ∧
    (¬ ((p.status = .Confirmed ∨ p.status = .Cancelled) ∨
        (p.expires_at < now ∧ (p.status = .Open ∨ p.status = .Active))) →
      close_prayer st p.requester now = (some (.prog .CannotClose), st)) ∧
    (p.status = .Fulfilled →
      close_prayer st p.requester now = (some (.prog .CannotClose), st)) := by
  unfold close_prayer
  simp only [hp]
  rw [if_pos trivial]
  by_cases hcond : (p.status = .Confirmed ∨ p.status = .Cancelled) ∨
      (p.expires_at < now ∧ (p.status = .Open ∨ p.status = .Active))
  · rw [if_pos hcond]
    by_cases hexp : (p.expires_at < now ∧ (p.status = .Open ∨ p.status = .Active)) ∧
        0 < p.reward_lamports
    · rw [if_pos hexp, if_pos hesc,
        if_pos (by omega : st.balances p.requester + p.reward_lamports ≤ U64_MAX)]
      refine ⟨by simp [hcond], ?_, by simp [hcond], ?_⟩
      · intro h
        refine ⟨?_, rfl, rfl⟩
        simp [credit]
        omega
      · intro hfl
        rw [hfl] at hcond
        simp at hcond
    · rw [if_neg hexp]
      refine ⟨by simp [hcond], ?_, by simp [hcond], ?_⟩
      · intro h
        refine ⟨?_, rfl, rfl⟩
        simp [credit]
      · intro hfl
        rw [hfl] at hcond
        simp at hcond
  · rw [if_neg hcond]
    refine ⟨by simp [hcond], ?_, fun _ => rfl, fun _ => rfl⟩
    intro h
    exact absurd (Or.inr h) hcond

/-- Witness for C2: closing the freshly posted (never claimed) prayer after
its expiry succeeds with the full escrow refunded. -/
theorem close_prayer_characterization_witness :
    (close_prayer witStPosted 1 2000).1 = none ∧
    (close_prayer witStPosted 1 2000).2.balances 1 =
      witStPosted.balances 1 + witStPosted.escrow := by
  have h := close_prayer_characterization witStPosted witPrayerP 2000
    (by decide) (by decide) (by decide)
  have h1 : witPrayerP.requester = 1 := by decide
  rw [h1] at h
  exact ⟨h.1.mpr (by decide), (h.2.1 (by decide)).1⟩

theorem checked_add_u64_some (a b c : Nat) (h : checked_add_u64 a b = some c) :
    c = a + b := by
  unfold checked_add_u64 at h
  split at h
  · injection h with h1
    exact h1.symm
  · cases h

theorem checked_add_u8_some (a b c : Nat) (h : checked_add_u8 a b = some c) :
    c = a + b := by
  unfold checked_add_u8 at h
  split at h
  · injection h with h1
    exact h1.symm
  · cases h

/-- Inversion of a successful `register_agent` call: the wallet was fresh,
the bounds hold, exactly one new agent record is appended, and prayer,
claims, balances, escrow and the prayer counter are untouched. -/
theorem register_agent_success_inv (st : St) (w : Pubkey) (n s : String)
    (k : List Nat) (t : Int)
    (hok : (register_agent st w n s k t).1 = none) :
    findAgent st w = none ∧
    n.utf8ByteSize ≤ Agent.MAX_NAME ∧ s.utf8ByteSize ≤ Agent.MAX_SKILLS ∧
    k ≠ zeroKey ∧
    (register_agent st w n s k t).2.agents =
      st.agents ++ [{ wallet := w, name := n, skills := s, encryption_key := k
                      prayers_posted := 0, prayers_answered := 0
                      prayers_confirmed := 0, reputation := 0
                      registered_at := t }] ∧
    (register_agent st w n s k t).2.prayer = st.prayer ∧
    (register_agent st w n s k t).2.claims = st.claims ∧
    (register_agent st w n s k t).2.balances = st.balances ∧
    (register_agent st w n s k t).2.escrow = st.escrow ∧
    (register_agent st w n s k t).2.chain.total_prayers =
      st.chain.total_prayers := by
  unfold register_agent at hok ⊢
  cases hA : findAgent st w with
  | some a => simp [hA] at hok
  | none =>
    simp only [hA] at hok ⊢
    by_cases h1 : n.utf8ByteSize ≤ Agent.MAX_NAME
    · by_cases h2 : s.utf8ByteSize ≤ Agent.MAX_SKILLS
      · by_cases h3 : k ≠ zeroKey
        · simp only [if_pos h1, if_pos h2, if_pos h3] at hok ⊢
          cases hc : checked_add_u64 st.chain.total_agents 1 with
          | none => simp [hc] at hok
          | some tot =>
            simp [hc]
            exact ⟨h1, h2, h3⟩
        · simp [if_pos h1, if_pos h2, if_neg h3] at hok
      · simp [if_pos h1, if_neg h2] at hok
    · simp [if_neg h1] at hok

/-- Inversion of a successful `post_prayer` call: the prayer slot was free,
the TTL and `max_claimers` bounds hold, the new prayer record is written in
status `Open` with zero claimers and the reward escrowed, the claims are
untouched and the prayer counter is bumped. -/
theorem post_prayer_success_inv (st : St) (rq : Pubkey) (pt : PrayerType)
    (ch : List Nat) (reward : Nat) (ttl : Int) (mc : Nat) (now : Int)
    (hok : (post_prayer st rq pt ch reward ttl mc now).1 = none) :
    st.prayer = none ∧
    0 < ttl ∧ ttl ≤ 604800 ∧ 1 ≤ mc ∧ mc ≤ MAX_CLAIMERS_LIMIT ∧
    (post_prayer st rq pt ch reward ttl mc now).2.prayer =
      some { id := st.chain.total_prayers, requester := rq, prayer_type := pt
             content_hash := ch, reward_lamports := reward, status := .Open
             max_claimers := mc, num_claimers := 0, answerer := pubkeyDefault
             answer_hash := List.replicate 32 0, created_at := now
             expires_at := now + ttl, fulfilled_at := 0 } ∧
    (post_prayer st rq pt ch reward ttl mc now).2.escrow = reward ∧
    (post_prayer st rq pt ch reward ttl mc now).2.claims = st.claims ∧
    (post_prayer st rq pt ch reward ttl mc now).2.chain.total_prayers =
      st.chain.total_prayers + 1 ∧
    (0 < reward →
      reward ≤ st.balances rq ∧
      (post_prayer st rq pt ch reward ttl mc now).2.balances =
        fun x => if x = rq then st.balances x - reward else st.balances x) ∧
    (reward = 0 →
      (post_prayer st rq pt ch reward ttl mc now).2.balances = st.balances) := by
  unfold post_prayer at hok ⊢
  cases hA : findAgent st rq with
  | none => simp [hA] at hok
  | some agent =>
    simp only [hA] at hok ⊢
    cases hP : st.prayer with
    | some q => simp [hP] at hok
    | none =>
      simp only [hP] at hok ⊢
      by_cases h1 : 0 < ttl ∧ ttl ≤ 604800
      · by_cases h2 : 1 ≤ mc ∧ mc ≤ MAX_CLAIMERS_LIMIT
        · simp only [if_pos h1, if_pos h2] at hok ⊢
          by_cases hr : 0 < reward
          · by_cases hb : reward ≤ st.balances rq
            · simp only [if_pos hr, if_pos hb] at hok ⊢
              cases hc1 : checked_add_u64 st.chain.total_prayers 1 with
              | none => simp [hc1] at hok
              | some tp =>
                simp only [hc1] at hok ⊢
                cases hc2 : checked_add_u64 agent.prayers_posted 1 with
                | none => simp [hc2] at hok
                | some pp =>
                  have htp := checked_add_u64_some _ _ _ hc1
                  simp [hc2, putAgent, h1, h2, hr, hb, htp]
                  intro h0
                  omega
            · simp [if_pos hr, if_neg hb] at hok
          · simp only [if_neg hr] at hok ⊢
            cases hc1 : checked_add_u64 st.chain.total_prayers 1 with
            | none => simp [hc1] at hok
            | some tp =>
              simp only [hc1] at hok ⊢
              cases hc2 : checked_add_u64 agent.prayers_posted 1 with
              | none => simp [hc2] at hok
              | some pp =>
                have htp := checked_add_u64_some _ _ _ hc1
                simp [hc2, putAgent, h1, h2, hr, htp, Nat.eq_zero_of_not_pos hr]
        · simp [if_pos h1, if_neg h2] at hok
      · simp [if_neg h1] at hok

/-- Inversion of a successful `claim_prayer` call: the prayer was `Open`,
unexpired, not the claimer's own and the claimer held no claim yet; one
claim record is appended, `num_claimers` is bumped and the status moves to
`Active` exactly when capacity is reached. -/
theorem claim_prayer_success_inv (st : St) (c : Pubkey) (now : Int) (p : Prayer)
    (hp : st.prayer = some p)
    (hok : (claim_prayer st c now).1 = none) :
    findClaim st p.id c = none ∧
    p.status = .Open ∧ now < p.expires_at ∧ p.requester ≠ c ∧
    (claim_prayer st c now).2.prayer =
      some { p with num_claimers := p.num_claimers + 1
                    status := if p.max_claimers ≤ p.num_claimers + 1 then
                        PrayerStatus.Active
                      else p.status } ∧
    (claim_prayer st c now).2.claims =
      st.claims ++ [{ prayer_id := p.id, claimer := c
                      content_delivered := false, claimed_at := now }] ∧
    (claim_prayer st c now).2.balances = st.balances ∧
    (claim_prayer st c now).2.escrow = st.escrow ∧
    (claim_prayer st c now).2.chain = st.chain := by
  unfold claim_prayer at hok ⊢
  simp only [hp] at hok ⊢
  cases hC : findClaim st p.id c with
  | some cl => simp [hC] at hok
  | none =>
    simp only [hC] at hok ⊢
    cases hA : findAgent st c with
    | none => simp [hA] at hok
    | some a =>
      simp only [hA] at hok ⊢
      by_cases h1 : p.status = PrayerStatus.Open
      · by_cases h2 : now < p.expires_at
        · by_cases h3 : p.requester ≠ c
          · simp only [if_pos h1, if_pos h2, if_pos h3] at hok ⊢
            cases hc1 : checked_add_u8 p.num_claimers 1 with
            | none => simp [hc1] at hok
            | some n =>
              have hn := checked_add_u8_some _ _ _ hc1
              simp [hc1, h1, h2, h3, hn]
          · simp [if_pos h1, if_pos h2, if_neg h3] at hok
        · simp [if_pos h1, if_neg h2] at hok
      · simp [if_neg h1] at hok

/-- Inversion of a successful `deliver_content` call: the caller is the
requester, the prayer is `Open` or `Active`, the targeted claim existed and
was not yet delivered; only that claim's `content_delivered` flag changes. -/
theorem deliver_content_success_inv (st : St) (rq c : Pubkey) (p : Prayer)
    (hp : st.prayer = some p)
    (hok : (deliver_content st rq c).1 = none) :
    p.requester = rq ∧ (p.status = .Open ∨ p.status = .Active) ∧
    (deliver_content st rq c).2.prayer = st.prayer ∧
    (deliver_content st rq c).2.claims =
      st.claims.map (fun cl =>
        if cl.prayer_id == p.id && cl.claimer == c then
          { cl with content_delivered := true }
        else cl) ∧
    (deliver_content st rq c).2.balances = st.balances ∧
    (deliver_content st rq c).2.escrow = st.escrow ∧
    (deliver_content st rq c).2.chain = st.chain := by
  unfold deliver_content at hok ⊢
  simp only [hp] at hok ⊢
  by_cases hrq : p.requester = rq
  · simp only [if_pos hrq] at hok ⊢
    cases hC : findClaim st p.id c with
    | none => simp [hC] at hok
    | some cl =>
      simp only [hC] at hok ⊢
      by_cases h1 : p.status = PrayerStatus.Open ∨ p.status = PrayerStatus.Active
      · simp only [if_pos h1, if_pos hrq] at hok ⊢
        by_cases h2 : cl.content_delivered = false
        · simp [if_pos h2, hrq, h1, hp]
        · simp [if_neg h2] at hok
      · simp [if_neg h1] at hok
  · simp [if_neg hrq] at hok

/-- Inversion of a successful `answer_prayer` call: the answerer held a
claim, the prayer was `Open` or `Active` and unexpired; the prayer moves to
`Fulfilled` with the answerer recorded, claims, balances, escrow and
the prayer counter untouched. -/
theorem answer_prayer_success_inv (st : St) (a : Pubkey) (ah : List Nat)
    (now : Int) (p : Prayer)
    (hp : st.prayer = some p)
    (hok : (answer_prayer st a ah now).1 = none) :
    (findClaim st p.id a).isSome ∧
    (p.status = .Open ∨ p.status = .Active) ∧ now < p.expires_at ∧
    (answer_prayer st a ah now).2.prayer =
      some { p with status := .Fulfilled, answerer := a, answer_hash := ah
                    fulfilled_at := now } ∧
    (answer_prayer st a ah now).2.claims = st.claims ∧
    (answer_prayer st a ah now).2.balances = st.balances ∧
    (answer_prayer st a ah now).2.escrow = st.escrow ∧
    (answer_prayer st a ah now).2.chain.total_prayers =
      st.chain.total_prayers := by
  unfold answer_prayer at hok ⊢
  simp only [hp] at hok ⊢
  cases hC : findClaim st p.id a with
  | none => simp [hC] at hok
  | some cl =>
    simp only [hC] at hok ⊢
    cases hA : findAgent st a with
    | none => simp [hA] at hok
    | some ag =>
      simp only [hA] at hok ⊢
      by_cases h1 : p.status = PrayerStatus.Open ∨ p.status = PrayerStatus.Active
      · by_cases h2 : now < p.expires_at
        · simp only [if_pos h1, if_pos h2] at hok ⊢
          cases hc1 : checked_add_u64 ag.prayers_answered 1 with
          | none => simp [hc1] at hok
          | some pa =>
            simp only [hc1] at hok ⊢
            cases hc2 : checked_add_u64 ag.reputation 10 with
            | none => simp [hc2] at hok
            | some rep =>
              simp only [hc2] at hok ⊢
              cases hc3 : checked_add_u64 st.chain.total_answered 1 with
              | none => simp [hc3] at hok
              | some ta => simp [hc3, putAgent, h1, h2]
        · simp [if_pos h1, if_neg h2] at hok
      · simp [if_neg h1] at hok

/-- Inversion of a successful `cancel_prayer` call: the caller is the
requester, the status was `Open` with no claims; the prayer moves to
`Cancelled`, the escrowed reward moves back to the requester, and claims
and the prayer counter are untouched. -/
theorem cancel_prayer_success_inv (st : St) (rq : Pubkey) (p : Prayer)
    (hp : st.prayer = some p)
    (hok : (cancel_prayer st rq).1 = none) :
    p.requester = rq ∧ p.status = .Open ∧ p.num_claimers = 0 ∧
    (cancel_prayer st rq).2.prayer = some { p with status := .Cancelled } ∧
    (cancel_prayer st rq).2.claims = st.claims ∧
    (cancel_prayer st rq).2.chain = st.chain ∧
    (0 < p.reward_lamports →
      p.reward_lamports ≤ st.escrow ∧
      (cancel_prayer st rq).2.escrow = st.escrow - p.reward_lamports ∧
      (cancel_prayer st rq).2.balances = credit st.balances rq p.reward_lamports) ∧
    (p.reward_lamports = 0 →
      (cancel_prayer st rq).2.escrow = st.escrow ∧
      (cancel_prayer st rq).2.balances = st.balances) := by
  unfold cancel_prayer at hok ⊢
  simp only [hp] at hok ⊢
  by_cases hrq : p.requester = rq
  · simp only [if_pos hrq] at hok ⊢
    by_cases h1 : p.status = PrayerStatus.Open
    · by_cases h2 : p.num_claimers = 0
      · simp only [if_pos h1, if_pos h2, if_pos hrq] at hok ⊢
        by_cases hr : 0 < p.reward_lamports
        · by_cases hesc : p.reward_lamports ≤ st.escrow
          · simp only [if_pos hr, if_pos hesc] at hok ⊢
            cases hc : checked_add_u64 (st.balances rq) p.reward_lamports with
            | none => simp [hc] at hok
            | some b =>
              simp [hc, hrq, h1, h2, hesc]
              intro h0
              omega
          · simp [if_pos hr, if_neg hesc] at hok
        · simp [if_neg hr, hrq, h1, h2, Nat.eq_zero_of_not_pos hr]
      · simp [if_pos h1, if_neg h2] at hok
    · simp [if_neg h1] at hok
  · simp [if_neg hrq] at hok

/-- Inversion of a successful `unclaim_prayer` call: the prayer was `Open`
or `Active`, the targeted claim existed, the caller was its claimer or the
claim was stale, and at least one claimer was counted; the claim record is
destroyed, `num_claimers` drops by one and `Active` reverts to `Open`. -/
theorem unclaim_prayer_success_inv (st : St) (caller c : Pubkey) (now : Int)
    (p : Prayer) (cl : Claim)
    (hp : st.prayer = some p)
    (hcl : findClaim st p.id c = some cl)
    (hok : (unclaim_prayer st caller c now).1 = none) :
    (p.status = .Open ∨ p.status = .Active) ∧
    (cl.claimer = caller ∨ cl.claimed_at + CLAIM_TIMEOUT_SECONDS < now) ∧
    1 ≤ p.num_claimers ∧
    (unclaim_prayer st caller c now).2.prayer =
      some (if p.status = PrayerStatus.Active then
          { p with num_claimers := p.num_claimers - 1, status := .Open }
        else { p with num_claimers := p.num_claimers - 1 }) ∧
    (unclaim_prayer st caller c now).2.claims =
      st.claims.eraseP (fun x => x.prayer_id == p.id && x.claimer == c) ∧
    (unclaim_prayer st caller c now).2.balances = st.balances ∧
    (unclaim_prayer st caller c now).2.escrow = st.escrow ∧
    (unclaim_prayer st caller c now).2.chain = st.chain := by
  unfold unclaim_prayer at hok ⊢
  simp only [hp, hcl] at hok ⊢
  by_cases h1 : p.status = PrayerStatus.Open ∨ p.status = PrayerStatus.Active
  · simp only [if_pos h1] at hok ⊢
    by_cases h2 : cl.claimer = caller ∨ cl.claimed_at + CLAIM_TIMEOUT_SECONDS < now
    · simp only [if_pos h2] at hok ⊢
      by_cases h3 : 1 ≤ p.num_claimers
      · rcases h1 with h1 | h1 <;> simp [if_pos h3, h1, h2, h3]
      · simp [if_neg h3] at hok
    · simp [if_neg h2] at hok
  · simp [if_neg h1] at hok

/-- Inversion of a successful `close_prayer` call: the caller is the
requester and the prayer was terminal or expired-while-`Open`/`Active`; the
record is destroyed, all of its lamports end up with the requester, and the
claims and the prayer counter are untouched. -/
theorem close_prayer_success_inv (st : St) (rq : Pubkey) (now : Int) (p : Prayer)
    (hp : st.prayer = some p)
    (hok : (close_prayer st rq now).1 = none) :
    p.requester = rq ∧
    ((p.status = .Confirmed ∨ p.status = .Cancelled) ∨
      (p.expires_at < now ∧ (p.status = .Open ∨ p.status = .Active))) ∧
    (close_prayer st rq now).2.prayer = none ∧
    (close_prayer st rq now).2.claims = st.claims ∧
    (close_prayer st rq now).2.escrow = 0 ∧
    (close_prayer st rq now).2.chain = st.chain := by
  unfold close_prayer at hok ⊢
  simp only [hp] at hok ⊢
  by_cases hrq : p.requester = rq
  · simp only [if_pos hrq] at hok ⊢
    by_cases hcond : (p.status = .Confirmed ∨ p.status = .Cancelled) ∨
        (p.expires_at < now ∧ (p.status = .Open ∨ p.status = .Active))
    · simp only [if_pos hcond] at hok ⊢
      by_cases hexp : (p.expires_at < now ∧
          (p.status = PrayerStatus.Open ∨ p.status = PrayerStatus.Active)) ∧
          0 < p.reward_lamports
      · simp only [if_pos hexp] at hok ⊢
        by_cases h1 : p.reward_lamports ≤ st.escrow
        · simp only [if_pos h1] at hok ⊢
          by_cases h2 : st.balances rq + p.reward_lamports ≤ U64_MAX
          · simp [if_pos h2, hrq, hcond]
          · simp [if_neg h2] at hok
        · simp [if_neg h1] at hok
      · simp [if_neg hexp, hrq, hcond]
    · simp [if_neg hcond] at hok
  · simp [if_neg hrq] at hok

/-! Committed-execution lemmas and preservation of the state invariant. -/

theorem exec_eq_of_err (st : St) (op : Op) (e : TxError)
    (h : (step st op).1 = some e) : exec st op = st := by
  unfold exec
  rcases hs : step st op with ⟨e1, st1⟩
  rw [hs] at h
  cases e1 with
  | none => cases h
  | some e2 => rfl

theorem exec_eq_snd_of_ok (st : St) (op : Op)
    (h : (step st op).1 = none) : exec st op = (step st op).2 := by
  unfold exec
  rcases hs : step st op with ⟨e1, st1⟩
  rw [hs] at h
  cases e1 with
  | none => rfl
  | some e2 => cases h

/-- Frame rule: a state change that keeps the claims, the prayer slot and
the prayer counter preserves the invariant. -/
theorem Inv_frame (st st' : St)
    (hc : st'.claims = st.claims) (hpq : st'.prayer = st.prayer)
    (ht : st'.chain.total_prayers = st.chain.total_prayers)
    (h : Inv st) : Inv st' := by
  obtain ⟨h1, h2⟩ := h
  constructor
  · rw [hc, ht]
    exact h1
  · intro p hps
    rw [hpq] at hps
    have h3 := h2 p hps
    rw [ht]
    simpa [claimsFor, hc] using h3

/-- A prayer update that keeps id, counters and capacity and moves the
status past `Active` preserves the invariant when claims and the prayer
counter are untouched. -/
theorem Inv_past_update (st st' : St) (p q : Prayer)
    (hP : st.prayer = some p) (hQ : st'.prayer = some q)
    (hid : q.id = p.id) (hnum : q.num_claimers = p.num_claimers)
    (hmax : q.max_claimers = p.max_claimers)
    (hstat : q.status = .Fulfilled ∨ q.status = .Confirmed ∨ q.status = .Cancelled)
    (hc : st'.claims = st.claims)
    (ht : st'.chain.total_prayers = st.chain.total_prayers)
    (h : Inv st) : Inv st' := by
  obtain ⟨h1, h2⟩ := h
  obtain ⟨g1, g2, g3, g4, -, -, g7, -⟩ := h2 p hP
  constructor
  · rw [hc, ht]
    exact h1
  · intro r hr
    rw [hQ] at hr
    injection hr with hr
    subst hr
    rw [ht]
    refine ⟨hid ▸ g1, hmax ▸ g2, hmax ▸ g3, by omega, ?_, ?_, ?_, ?_⟩
    · intro hopen
      rcases hstat with hs | hs | hs <;> rw [hopen] at hs <;> cases hs
    · intro hact
      rcases hstat with hs | hs | hs <;> rw [hact] at hs <;> cases hs
    · rw [hid, hnum]
      simpa [claimsFor, hc] using g7
    · intro hexp
      rcases hstat with hs | hs | hs <;> rw [hexp] at hs <;> cases hs

/-- Destroying the prayer record while keeping claims and the counter
preserves the invariant. -/
theorem Inv_destroyed (st st' : St)
    (hQ : st'.prayer = none) (hc : st'.claims = st.claims)
    (ht : st'.chain.total_prayers = st.chain.total_prayers)
    (h : Inv st) : Inv st' := by
  obtain ⟨h1, -⟩ := h
  constructor
  · rw [hc, ht]
    exact h1
  · intro r hr
    rw [hQ] at hr
    cases hr

theorem inv_exec_register (st : St) (w : Pubkey) (n s : String) (k : List Nat)
    (t : Int) (h : Inv st) : Inv (exec st (.register w n s k t)) := by
  cases hok : (step st (.register w n s k t)).1 with
  | some e => rw [exec_eq_of_err st _ e hok]; exact h
  | none =>
    rw [exec_eq_snd_of_ok st _ hok]
    rw [show step st (.register w n s k t) = register_agent st w n s k t from rfl]
      at hok ⊢
    obtain ⟨-, -, -, -, -, hpq, hcl, -, -, hch⟩ :=
      register_agent_success_inv st w n s k t hok
    exact Inv_frame st _ hcl hpq hch h

theorem inv_exec_post (st : St) (rq : Pubkey) (pt : PrayerType) (ch : List Nat)
    (rw0 : Nat) (ttl : Int) (mc : Nat) (t : Int) (h : Inv st) :
    Inv (exec st (.post rq pt ch rw0 ttl mc t)) := by
  cases hok : (step st (.post rq pt ch rw0 ttl mc t)).1 with
  | some e => rw [exec_eq_of_err st _ e hok]; exact h
  | none =>
    rw [exec_eq_snd_of_ok st _ hok]
    rw [show step st (.post rq pt ch rw0 ttl mc t) =
      post_prayer st rq pt ch rw0 ttl mc t from rfl] at hok ⊢
    obtain ⟨-, -, -, hmc1, hmc2, hpq, -, hcl, hch, -, -⟩ :=
      post_prayer_success_inv st rq pt ch rw0 ttl mc t hok
    obtain ⟨h1, -⟩ := h
    constructor
    · intro c' hc'
      rw [hcl] at hc'
      rw [hch]
      have := h1 c' hc'
      omega
    · intro r hr
      rw [hpq] at hr
      injection hr with hr
      subst hr
      rw [hch]
      refine ⟨?_, ?_, ?_, ?_, ?_, ?_, ?_, ?_⟩
      · simp only
        omega
      · exact hmc1
      · simpa [MAX_CLAIMERS_LIMIT] using hmc2
      · simp only
        omega
      · intro
        exact hmc1
      · intro hact
        simp at hact
      · simp only [claimsFor, hcl]
        have hempty : st.claims.filter
            (fun c' => c'.prayer_id ==
              ({ id := st.chain.total_prayers, requester := rq, prayer_type := pt
                 content_hash := ch, reward_lamports := rw0, status := .Open
                 max_claimers := mc, num_claimers := 0, answerer := pubkeyDefault
                 answer_hash := List.replicate 32 0, created_at := t
                 expires_at := t + ttl, fulfilled_at := 0 } : Prayer).id) = [] := by
          apply List.filter_eq_nil.mpr
          intro c' hc'
          have := h1 c' hc'
          simp only [beq_iff_eq]
          omega
        rw [hempty]
        rfl
      · simp

theorem inv_exec_claim (st : St) (c : Pubkey) (t : Int) (h : Inv st) :
    Inv (exec st (.claim c t)) := by
  cases hok : (step st (.claim c t)).1 with
  | some e => rw [exec_eq_of_err st _ e hok]; exact h
  | none =>
    rw [exec_eq_snd_of_ok st _ hok]
    rw [show step st (.claim c t) = claim_prayer st c t from rfl] at hok ⊢
    cases hP : st.prayer with
    | none =>
      exfalso
      have hcontra : (claim_prayer st c t).1 = some .accountNotFound := by
        unfold claim_prayer
        rw [hP]
      rw [hcontra] at hok
      cases hok
    | some p =>
      obtain ⟨-, hopen, -, -, hpq, hcl, -, -, hch⟩ :=
        claim_prayer_success_inv st c t p hP hok
      obtain ⟨h1, h2⟩ := h
      obtain ⟨g1, g2, g3, g4, g5, -, g7, -⟩ := h2 p hP
      have hlt : p.num_claimers < p.max_claimers := g5 hopen
      constructor
      · intro c' hc'
        rw [hcl] at hc'
        rw [hch]
        rcases List.mem_append.mp hc' with hmem | hmem
        · exact h1 c' hmem
        · simp at hmem
          rw [hmem]
          simpa using g1
      · intro r hr
        rw [hpq] at hr
        injection hr with hr
        subst hr
        rw [hch]
        refine ⟨by simpa using g1, by simpa using g2, by simpa using g3,
          ?_, ?_, ?_, ?_, ?_⟩
        · show p.num_claimers + 1 ≤ p.max_claimers
          omega
        · intro hopen'
          have hopen2 : (if p.max_claimers ≤ p.num_claimers + 1 then
              PrayerStatus.Active else p.status) = PrayerStatus.Open := hopen'
          show p.num_claimers + 1 < p.max_claimers
          by_cases hcap : p.max_claimers ≤ p.num_claimers + 1
          · rw [if_pos hcap] at hopen2
            cases hopen2
          · omega
        · intro hact
          have hact2 : (if p.max_claimers ≤ p.num_claimers + 1 then
              PrayerStatus.Active else p.status) = PrayerStatus.Active := hact
          show p.num_claimers + 1 = p.max_claimers
          by_cases hcap : p.max_claimers ≤ p.num_claimers + 1
          · omega
          · rw [if_neg hcap, hopen] at hact2
            cases hact2
        · have g7' : (List.filter (fun x => x.prayer_id == p.id) st.claims).length
              = p.num_claimers := g7
          simp only [claimsFor, hcl, List.filter_append]
          simp [g7']
        · show (if p.max_claimers ≤ p.num_claimers + 1 then
              PrayerStatus.Active else p.status) ≠ PrayerStatus.Expired
          by_cases hcap : p.max_claimers ≤ p.num_claimers + 1
          · rw [if_pos hcap]
            simp
          · rw [if_neg hcap, hopen]
            simp

theorem inv_exec_deliver (st : St) (rq c : Pubkey) (h : Inv st) :
    Inv (exec st (.deliver rq c)) := by
  cases hok : (step st (.deliver rq c)).1 with
  | some e => rw [exec_eq_of_err st _ e hok]; exact h
  | none =>
    rw [exec_eq_snd_of_ok st _ hok]
    rw [show step st (.deliver rq c) = deliver_content st rq c from rfl] at hok ⊢
    cases hP : st.prayer with
    | none =>
      exfalso
      have hcontra : (deliver_content st rq c).1 = some .accountNotFound := by
        unfold deliver_content
        rw [hP]
      rw [hcontra] at hok
      cases hok
    | some p =>
      obtain ⟨-, -, hpq, hcl, -, -, hch⟩ :=
        deliver_content_success_inv st rq c p hP hok
      obtain ⟨h1, h2⟩ := h
      constructor
      · intro c' hc'
        rw [hcl] at hc'
        rw [hch]
        obtain ⟨x, hx, hfx⟩ := List.mem_map.mp hc'
        have := h1 x hx
        by_cases hcond : x.prayer_id == p.id && x.claimer == c
        · rw [if_pos hcond] at hfx
          rw [← hfx]
          simpa using this
        · rw [if_neg hcond] at hfx
          rw [← hfx]
          exact this
      · intro r hr
        rw [hpq, hP] at hr
        injection hr with hr
        subst hr
        obtain ⟨g1, g2, g3, g4, g5, g6, g7, g8⟩ := h2 p hP
        rw [hch]
        refine ⟨g1, g2, g3, g4, g5, g6, ?_, g8⟩
        simp only [claimsFor, hcl]
        rw [length_filter_map
          (fun cl => if cl.prayer_id == p.id && cl.claimer == c then
            { cl with content_delivered := true } else cl)
          (fun cl => cl.prayer_id == p.id)
          (by
            intro x
            by_cases hcond : x.prayer_id == p.id && x.claimer == c <;>
              simp [hcond])
          st.claims]
        exact g7

theorem inv_exec_answer (st : St) (a : Pubkey) (ah : List Nat) (t : Int)
    (h : Inv st) : Inv (exec st (.answer a ah t)) := by
  cases hok : (step st (.answer a ah t)).1 with
  | some e => rw [exec_eq_of_err st _ e hok]; exact h
  | none =>
    rw [exec_eq_snd_of_ok st _ hok]
    rw [show step st (.answer a ah t) = answer_prayer st a ah t from rfl] at hok ⊢
    cases hP : st.prayer with
    | none =>
      exfalso
      have hcontra : (answer_prayer st a ah t).1 = some .accountNotFound := by
        unfold answer_prayer
        rw [hP]
      rw [hcontra] at hok
      cases hok
    | some p =>
      obtain ⟨-, -, -, hpq, hcl, -, -, hch⟩ :=
        answer_prayer_success_inv st a ah t p hP hok
      exact Inv_past_update st _ p _ hP hpq rfl rfl rfl (Or.inl rfl) hcl hch h

theorem inv_exec_confirm (st : St) (rq : Pubkey) (accts : List Pubkey)
    (h : Inv st) : Inv (exec st (.confirm rq accts)) := by
  cases hok : (step st (.confirm rq accts)).1 with
  | some e => rw [exec_eq_of_err st _ e hok]; exact h
  | none =>
    rw [exec_eq_snd_of_ok st _ hok]
    rw [show step st (.confirm rq accts) = confirm_prayer st rq accts from rfl]
      at hok ⊢
    cases hP : st.prayer with
    | none =>
      exfalso
      have hcontra : (confirm_prayer st rq accts).1 = some .accountNotFound := by
        unfold confirm_prayer
        rw [hP]
      rw [hcontra] at hok
      cases hok
    | some p =>
      obtain ⟨-, -, -, -, -, hpq, hcl, hch⟩ :=
        confirm_prayer_success_inv st rq accts p hP hok
      exact Inv_past_update st _ p _ hP hpq rfl rfl rfl (Or.inr (Or.inl rfl))
        hcl hch h

theorem inv_exec_cancel (st : St) (rq : Pubkey) (h : Inv st) :
    Inv (exec st (.cancel rq)) := by
  cases hok : (step st (.cancel rq)).1 with
  | some e => rw [exec_eq_of_err st _ e hok]; exact h
  | none =>
    rw [exec_eq_snd_of_ok st _ hok]
    rw [show step st (.cancel rq) = cancel_prayer st rq from rfl] at hok ⊢
    cases hP : st.prayer with
    | none =>
      exfalso
      have hcontra : (cancel_prayer st rq).1 = some .accountNotFound := by
        unfold cancel_prayer
        rw [hP]
      rw [hcontra] at hok
      cases hok
    | some p =>
      obtain ⟨-, -, -, hpq, hcl, hch, -, -⟩ :=
        cancel_prayer_success_inv st rq p hP hok
      exact Inv_past_update st _ p _ hP hpq rfl rfl rfl
        (Or.inr (Or.inr rfl)) hcl (by rw [hch]) h

theorem inv_exec_unclaim (st : St) (caller c : Pubkey) (t : Int) (h : Inv st) :
    Inv (exec st (.unclaim caller c t)) := by
  cases hok : (step st (.unclaim caller c t)).1 with
  | some e => rw [exec_eq_of_err st _ e hok]; exact h
  | none =>
    rw [exec_eq_snd_of_ok st _ hok]
    rw [show step st (.unclaim caller c t) = unclaim_prayer st caller c t from rfl]
      at hok ⊢
    cases hP : st.prayer with
    | none =>
      exfalso
      have hcontra : (unclaim_prayer st caller c t).1 = some .accountNotFound := by
        unfold unclaim_prayer
        rw [hP]
      rw [hcontra] at hok
      cases hok
    | some p =>
      cases hC : findClaim st p.id c with
      | none =>
        exfalso
        have hcontra : (unclaim_prayer st caller c t).1 = some .accountNotFound := by
          unfold unclaim_prayer
          simp [hP, hC]
        rw [hcontra] at hok
        cases hok
      | some cl =>
        obtain ⟨hOA, -, hone, hpq, hcl2, -, -, hch⟩ :=
          unclaim_prayer_success_inv st caller c t p cl hP hC hok
        obtain ⟨h1, h2⟩ := h
        obtain ⟨g1, g2, g3, g4, g5, g6, g7, -⟩ := h2 p hP
        have hCf : st.claims.find?
            (fun x => x.prayer_id == p.id && x.claimer == c) = some cl := hC
        have hlen : (claimsFor (unclaim_prayer st caller c t).2 p.id).length + 1 =
            (claimsFor st p.id).length := by
          simp only [claimsFor, hcl2]
          exact length_filter_eraseP
            (fun x => x.prayer_id == p.id && x.claimer == c)
            (fun x => x.prayer_id == p.id)
            (by
              intro x hx
              simp only [Bool.and_eq_true, beq_iff_eq] at hx
              simp [hx.1])
            st.claims cl hCf
        constructor
        · intro c' hc'
          rw [hcl2] at hc'
          rw [hch]
          exact h1 c' (List.mem_of_mem_eraseP hc')
        · intro r hr
          rw [hpq] at hr
          injection hr with hr
          rw [hch]
          by_cases hact : p.status = PrayerStatus.Active
          · rw [if_pos hact] at hr
            subst hr
            refine ⟨g1, g2, g3, ?_, ?_, ?_, ?_, by simp⟩
            · show p.num_claimers - 1 ≤ p.max_claimers
              omega
            · intro
              show p.num_claimers - 1 < p.max_claimers
              have := g6 hact
              omega
            · intro habs
              simp at habs
            · show (claimsFor (unclaim_prayer st caller c t).2 p.id).length =
                p.num_claimers - 1
              omega
          · rw [if_neg hact] at hr
            subst hr
            have hopen : p.status = PrayerStatus.Open := by
              rcases hOA with h0 | h0
              · exact h0
              · exact absurd h0 hact
            refine ⟨g1, g2, g3, ?_, ?_, ?_, ?_, by simp [hopen]⟩
            · show p.num_claimers - 1 ≤ p.max_claimers
              omega
            · intro
              show p.num_claimers - 1 < p.max_claimers
              have := g5 hopen
              omega
            · intro habs
              exact absurd habs hact
            · show (claimsFor (unclaim_prayer st caller c t).2 p.id).length =
                p.num_claimers - 1
              omega

theorem inv_exec_close (st : St) (rq : Pubkey) (t : Int) (h : Inv st) :
    Inv (exec st (.close rq t)) := by
  cases hok : (step st (.close rq t)).1 with
  | some e => rw [exec_eq_of_err st _ e hok]; exact h
  | none =>
    rw [exec_eq_snd_of_ok st _ hok]
    rw [show step st (.close rq t) = close_prayer st rq t from rfl] at hok ⊢
    cases hP : st.prayer with
    | none =>
      exfalso
      have hcontra : (close_prayer st rq t).1 = some .accountNotFound := by
        unfold close_prayer
        rw [hP]
      rw [hcontra] at hok
      cases hok
    | some p =>
      obtain ⟨-, -, hpq, hcl, -, hch⟩ := close_prayer_success_inv st rq t p hP hok
      exact Inv_destroyed st _ hpq hcl (by rw [hch]) h

/-- The invariant is preserved by the committed effect of every operation. -/
theorem inv_exec (st : St) (op : Op) (h : Inv st) : Inv (exec st op) := by
  cases op with
  | register w n s k t => exact inv_exec_register st w n s k t h
  | post rq pt ch rw0 ttl mc t => exact inv_exec_post st rq pt ch rw0 ttl mc t h
  | claim c t => exact inv_exec_claim st c t h
  | deliver rq c => exact inv_exec_deliver st rq c h
  | answer a ah t => exact inv_exec_answer st a ah t h
  | confirm rq accts => exact inv_exec_confirm st rq accts h
  | cancel rq => exact inv_exec_cancel st rq h
  | unclaim caller c t => exact inv_exec_unclaim st caller c t h
  | close rq t => exact inv_exec_close st rq t h

/-- The invariant is preserved along every sequence of operations. -/
theorem inv_execAll (st : St) (ops : List Op) (h : Inv st) :
    Inv (execAll st ops) := by
  induction ops generalizing st with
  | nil => simpa [execAll] using h
  | cons op rest ih =>
    have h1 : Inv (exec st op) := inv_exec st op h
    simpa [execAll] using ih (exec st op) h1

/-- The initial scenario ledger satisfies the state invariant. -/
theorem Inv_witSt0 : Inv witSt0 := by
  constructor
  · intro c hc
    simp [witSt0] at hc
  · intro p hp
    simp [witSt0] at hp

/-- C3: for every sequence of operations on a ledger satisfying the state
invariant (in particular any ledger with a freshly posted prayer), the
bounds `num_claimers ≤ max_claimers ≤ 10` hold after each operation
(`0 ≤ num_claimers` holds because the count is a natural number); and a
`claim_prayer` attempt by a fresh registered claimer while the prayer is
`Active` — capacity already reached, i.e. the `(max_claimers+1)`-th claimer
— always fails with `NotOpen` and leaves the state, in particular
`num_claimers`, unchanged. -/
theorem num_claimers_bounds :
    (∀ (st : St) (ops : List Op) (p : Prayer), Inv st →
      (execAll st ops).prayer = some p →
      p.num_claimers ≤ p.max_claimers ∧ p.max_claimers ≤ 10) ∧
    (∀ (st : St) (p : Prayer) (c : Pubkey) (t : Int) (a : Agent),
      st.prayer = some p → p.status = .Active →
      findClaim st p.id c = none → findAgent st c = some a →
      claim_prayer st c t = (some (.prog .NotOpen), st) ∧
      exec st (.claim c t) = st) := by
  constructor
  · intro st ops p hInv hp
    obtain ⟨-, h2⟩ := inv_execAll st ops hInv
    obtain ⟨-, -, g3, g4, -, -, -, -⟩ := h2 p hp
    exact ⟨g4, g3⟩
  · intro st p c t a hp hact hC hA
    have hres : claim_prayer st c t = (some (.prog .NotOpen), st) := by
      unfold claim_prayer
      simp only [hp, hC, hA]
      rw [if_neg (by rw [hact]; simp)]
    refine ⟨hres, ?_⟩
    exact exec_eq_of_err st _ (.prog .NotOpen)
      (by rw [show (step st (.claim c t)).1 = (claim_prayer st c t).1 from rfl,
        hres])

/-- Witness for C3: the concrete scenario state is invariant-respecting, a
fourth fresh claimer (agent 5) bounces off the `Active` prayer with
`NotOpen`, and the bounds hold after the whole scenario. -/
theorem num_claimers_bounds_witness :
    (claim_prayer (execAll witSt0
        ((.register 5 "d" "s" (List.replicate 32 5) 0) :: witOps.take 8)) 5 2).1 =
      some (.prog .NotOpen) ∧
    (witPrayerF.num_claimers ≤ witPrayerF.max_claimers ∧
      witPrayerF.max_claimers ≤ 10) := by
  constructor
  · have h := (num_claimers_bounds.2 (execAll witSt0
        ((.register 5 "d" "s" (List.replicate 32 5) 0) :: witOps.take 8))
      ((execAll witSt0
          ((.register 5 "d" "s" (List.replicate 32 5) 0) :: witOps.take 8)).prayer.getD
        witPrayerF)
      5 2
      ((findAgent (execAll witSt0
          ((.register 5 "d" "s" (List.replicate 32 5) 0) :: witOps.take 8)) 5).getD
        witAgent2)
      (by decide) (by decide) (by decide) (by decide))
    rw [h.1]
  · exact num_claimers_bounds.1 witSt0 witOps witPrayerF Inv_witSt0 (by decide)

/-- C4: after every operation on an invariant-respecting ledger, the status
is `Active` exactly when `num_claimers = max_claimers` and the status has
not moved past `Active`; a successful `claim_prayer` leaves status `Active`
exactly when the increment brought `num_claimers` up to `max_claimers`; and
a successful `unclaim_prayer` from `Active` always reverts the status to
`Open`. -/
theorem active_iff_at_capacity :
    (∀ (st : St) (ops : List Op) (p : Prayer), Inv st →
      (execAll st ops).prayer = some p →
      (p.status = .Active ↔ p.num_claimers = p.max_claimers ∧
        p.status ≠ .Fulfilled ∧ p.status ≠ .Confirmed ∧ p.status ≠ .Cancelled)) ∧
    (∀ (st : St) (p : Prayer) (c : Pubkey) (t : Int) (p1 : Prayer), Inv st →
      st.prayer = some p →
      (claim_prayer st c t).1 = none →
      (claim_prayer st c t).2.prayer = some p1 →
      (p1.status = .Active ↔ p1.num_claimers = p.max_claimers)) ∧
    (∀ (st : St) (p : Prayer) (cl : Claim) (caller c : Pubkey) (t : Int)
        (p1 : Prayer),
      st.prayer = some p → p.status = .Active →
      findClaim st p.id c = some cl →
      (unclaim_prayer st caller c t).1 = none →
      (unclaim_prayer st caller c t).2.prayer = some p1 →
      p1.status = .Open) := by
  refine ⟨?_, ?_, ?_⟩
  · intro st ops p hInv hp
    obtain ⟨-, h2⟩ := inv_execAll st ops hInv
    obtain ⟨-, -, -, -, g5, g6, -, g8⟩ := h2 p hp
    constructor
    · intro ha
      refine ⟨g6 ha, ?_, ?_, ?_⟩ <;> rw [ha] <;> simp
    · rintro ⟨hnum, hf, hc, hx⟩
      cases hps : p.status with
      | Open => exact absurd hnum (by have := g5 hps; omega)
      | Active => rfl
      | Fulfilled => exact absurd hps hf
      | Confirmed => exact absurd hps hc
      | Expired => exact absurd hps g8
      | Cancelled => exact absurd hps hx
  · intro st p c t p1 hInv hp hok hp1
    obtain ⟨-, hopen, -, -, hpq, -, -, -, -⟩ :=
      claim_prayer_success_inv st c t p hp hok
    rw [hpq] at hp1
    injection hp1 with hp1
    subst hp1
    obtain ⟨-, h2⟩ := hInv
    obtain ⟨-, -, -, -, g5, -, -, -⟩ := h2 p hp
    have hlt := g5 hopen
    by_cases hcap : p.max_claimers ≤ p.num_claimers + 1
    · constructor
      · intro
        show p.num_claimers + 1 = p.max_claimers
        omega
      · intro
        show (if p.max_claimers ≤ p.num_claimers + 1 then
            PrayerStatus.Active else p.status) = PrayerStatus.Active
        rw [if_pos hcap]
    · constructor
      · intro habs
        have habs2 : (if p.max_claimers ≤ p.num_claimers + 1 then
            PrayerStatus.Active else p.status) = PrayerStatus.Active := habs
        rw [if_neg hcap, hopen] at habs2
        cases habs2
      · intro hnum
        have hnum2 : p.num_claimers + 1 = p.max_claimers := hnum
        omega
  · intro st p cl caller c t p1 hp hact hC hok hp1
    obtain ⟨-, -, -, hpq, -, -, -, -⟩ :=
      unclaim_prayer_success_inv st caller c t p cl hp hC hok
    rw [hpq] at hp1
    injection hp1 with hp1
    subst hp1
    rw [if_pos hact]

/-- Witness for C4: in the concrete scenario, the third claim flips the
status to `Active` (capacity 3 reached), an unclaim from `Active` reverts
to `Open`, and the fulfilled state satisfies the iff. -/
theorem active_iff_at_capacity_witness :
    ((witStActive.prayer.getD witPrayerF).status = .Active ↔
      (witStActive.prayer.getD witPrayerF).num_claimers =
        (witStActive.prayer.getD witPrayerF).max_claimers ∧
      (witStActive.prayer.getD witPrayerF).status ≠ .Fulfilled ∧
      (witStActive.prayer.getD witPrayerF).status ≠ .Confirmed ∧
      (witStActive.prayer.getD witPrayerF).status ≠ .Cancelled) ∧
    ((unclaim_prayer witStActive 2 2 3).2.prayer.getD witPrayerF).status =
      .Open := by
  constructor
  · exact active_iff_at_capacity.1 witSt0 (witOps.take 8)
      (witStActive.prayer.getD witPrayerF) Inv_witSt0 (by decide)
  · have h := active_iff_at_capacity.2.2 witStActive
      (witStActive.prayer.getD witPrayerF)
      ((findClaim witStActive 0 2).getD witClaim2) 2 2 3
      ((unclaim_prayer witStActive 2 2 3).2.prayer.getD witPrayerF)
      (by decide) (by decide) (by decide) (by decide) (by decide)
    exact h

theorem distribute_loop_err_system (per reward : Nat) :
    ∀ (accts : List Pubkey) (esc : Nat) (bal : Pubkey → Nat) (dist : Nat)
      (e0 : TxError) (r : Nat × (Pubkey → Nat) × Nat),
      distribute_loop per reward accts esc bal dist = (some e0, r) →
      e0 = TxError.system := by
  intro accts
  induction accts with
  | nil =>
    intro esc bal dist e0 r h
    simp [distribute_loop] at h
  | cons a rest ih =>
    intro esc bal dist e0 r h
    unfold distribute_loop at h
    by_cases h1 : reward < dist + per
    · simp [h1] at h
    · rw [if_neg h1] at h
      by_cases h2 : 0 < per
      · rw [if_pos h2] at h
        by_cases h3 : per ≤ esc
        · rw [if_pos h3] at h
          by_cases h4 : bal a + per ≤ U64_MAX
          · rw [if_pos h4] at h
            exact ih _ _ _ _ _ h
          · rw [if_neg h4] at h
            injection h with hA hB
            injection hA with hA
            exact hA.symm
        · rw [if_neg h3] at h
          injection h with hA hB
          injection hA with hA
          exact hA.symm
      · rw [if_neg h2] at h
        exact ih _ _ _ _ _ h

/-- C5: every operation is atomic with respect to errors.  First part: for
each of the nine instruction handlers, every exit with a program error
(a `require!` failure or an Anchor constraint error) happens before any
record mutation, so the handler's own exit state is the untouched pre-state.
Second part: the committed (transaction) semantics rolls back every failed
operation — whatever the error, the ledger after a failed step equals the
pre-state. -/
theorem operations_atomic_on_error :
    ((∀ st w n s k t e st1,
        register_agent st w n s k t = (some (.prog e), st1) → st1 = st) ∧
      (∀ st rq pt ch rw0 ttl mc t e st1,
        post_prayer st rq pt ch rw0 ttl mc t = (some (.prog e), st1) → st1 = st) ∧
      (∀ st c t e st1,
        claim_prayer st c t = (some (.prog e), st1) → st1 = st) ∧
      (∀ st rq c e st1,
        deliver_content st rq c = (some (.prog e), st1) → st1 = st) ∧
      (∀ st a ah t e st1,
        answer_prayer st a ah t = (some (.prog e), st1) → st1 = st) ∧
      (∀ st rq accts e st1,
        confirm_prayer st rq accts = (some (.prog e), st1) → st1 = st) ∧
      (∀ st rq e st1,
        cancel_prayer st rq = (some (.prog e), st1) → st1 = st) ∧
      (∀ st caller c t e st1,
        unclaim_prayer st caller c t = (some (.prog e), st1) → st1 = st) ∧
      (∀ st rq t e st1,
        close_prayer st rq t = (some (.prog e), st1) → st1 = st)) ∧
    (∀ (st : St) (op : Op) (e : TxError),
      (step st op).1 = some e → exec st op = st) := by
  constructor
  · refine ⟨?_, ?_, ?_, ?_, ?_, ?_, ?_, ?_, ?_⟩
    · intro st w n s k t e st1 hres
      simp only [register_agent] at hres
      repeat' split at hres
      all_goals
        injection hres with hA hB
      all_goals
        first
        | exact hB.symm
        | (simp at hA
           done)
    · intro st rq pt ch rw0 ttl mc t e st1 hres
      simp only [post_prayer] at hres
      repeat' split at hres
      all_goals
        injection hres with hA hB
      all_goals
        first
        | exact hB.symm
        | (simp at hA
           done)
    · intro st c t e st1 hres
      simp only [claim_prayer] at hres
      repeat' split at hres
      all_goals
        injection hres with hA hB
      all_goals
        first
        | exact hB.symm
        | (simp at hA
           done)
    · intro st rq c e st1 hres
      simp only [deliver_content] at hres
      repeat' split at hres
      all_goals
        injection hres with hA hB
      all_goals
        first
        | exact hB.symm
        | (simp at hA
           done)
    · intro st a ah t e st1 hres
      simp only [answer_prayer] at hres
      repeat' split at hres
      all_goals
        injection hres with hA hB
      all_goals
        first
        | exact hB.symm
        | (simp at hA
           done)
    · intro st rq accts e st1 hres
      simp only [confirm_prayer] at hres
      repeat' split at hres
      all_goals
        injection hres with hA hB
      all_goals
        first
        | exact hB.symm
        | (simp at hA
           done)
        | (rename_i hdl
           injection hA with hA2
           have hsys := distribute_loop_err_system _ _ _ _ _ _ _ _ hdl
           rw [hsys] at hA2
           cases hA2)
    · intro st rq e st1 hres
      simp only [cancel_prayer] at hres
      repeat' split at hres
      all_goals
        injection hres with hA hB
      all_goals
        first
        | exact hB.symm
        | (simp at hA
           done)
    · intro st caller c t e st1 hres
      simp only [unclaim_prayer] at hres
      repeat' split at hres
      all_goals
        injection hres with hA hB
      all_goals
        first
        | exact hB.symm
        | (simp at hA
           done)
    · intro st rq t e st1 hres
      simp only [close_prayer] at hres
      repeat' split at hres
      all_goals
        injection hres with hA hB
      all_goals
        first
        | exact hB.symm
        | (simp at hA
           done)
  · intro st op e h
    exact exec_eq_of_err st op e h

/-- Witness for C5: cancelling the fulfilled scenario prayer fails with
`CannotCancel` and leaves the state untouched. -/
theorem operations_atomic_on_error_witness :
    (cancel_prayer witStFulfilled 1).1 = some (.prog .CannotCancel) ∧
    (cancel_prayer witStFulfilled 1).2 = witStFulfilled := by
  refine ⟨by decide, ?_⟩
  exact operations_atomic_on_error.1.2.2.2.2.2.2.1 witStFulfilled 1
    PrayerError.CannotCancel (cancel_prayer witStFulfilled 1).2
    (by
      have h1 : (cancel_prayer witStFulfilled 1).1 =
          some (.prog .CannotCancel) := by decide
      exact Prod.ext h1 rfl)

/-- C6: `cancel_prayer` succeeds exactly when the requester cancels an
`Open` prayer with no claims, failing `NotRequester` for any other caller,
`CannotCancel` on a wrong status and `HasClaimers` on existing claims; on
success the status becomes `Cancelled` and the full escrowed reward flows
back to the requester, so a `post_prayer` followed immediately by a
successful `cancel_prayer` leaves the requester's balance net unchanged. -/
theorem cancel_prayer_characterization :
    (∀ (st : St) (p : Prayer) (caller : Pubkey),
      st.prayer = some p →
      p.reward_lamports ≤ st.escrow →
      st.balances caller + p.reward_lamports ≤ U64_MAX →
      (((cancel_prayer st caller).1 = none ↔
          p.requester = caller ∧ p.status = .Open ∧ p.num_claimers = 0) ∧
        (p.requester ≠ caller →
          cancel_prayer st caller = (some (.prog .NotRequester), st)) ∧
        (p.requester = caller → p.status ≠ .Open →
          cancel_prayer st caller = (some (.prog .CannotCancel), st)) ∧
        (p.requester = caller → p.status = .Open → p.num_claimers ≠ 0 →
          cancel_prayer st caller = (some (.prog .HasClaimers), st)) ∧
        ((cancel_prayer st caller).1 = none →
          (cancel_prayer st caller).2.balances caller =
            st.balances caller + p.reward_lamports ∧
          (cancel_prayer st caller).2.prayer =
            some { p with status := .Cancelled }))) ∧
    (∀ (st0 : St) (caller : Pubkey) (pt : PrayerType) (ch : List Nat)
        (reward : Nat) (ttl : Int) (mc : Nat) (now : Int),
      (post_prayer st0 caller pt ch reward ttl mc now).1 = none →
      (cancel_prayer (post_prayer st0 caller pt ch reward ttl mc now).2
        caller).1 = none →
      (cancel_prayer (post_prayer st0 caller pt ch reward ttl mc now).2
        caller).2.balances caller = st0.balances caller) := by
  constructor
  · intro st p caller hp hesc hbal
    have hchar : ∀ hrq : p.requester = caller, ∀ h1 : p.status = PrayerStatus.Open,
        ∀ h2 : p.num_claimers = 0,
        (cancel_prayer st caller).1 = none := by
      intro hrq h1 h2
      unfold cancel_prayer
      simp only [hp, if_pos hrq, if_pos h1, if_pos h2]
      by_cases hr : 0 < p.reward_lamports
      · rw [if_pos hr, if_pos hesc]
        have : checked_add_u64 (st.balances caller) p.reward_lamports =
            some (st.balances caller + p.reward_lamports) := by
          unfold checked_add_u64
          rw [if_pos hbal]
        rw [this]
      · rw [if_neg hr]
    refine ⟨?_, ?_, ?_, ?_, ?_⟩
    · constructor
      · intro hok
        obtain ⟨a1, a2, a3, -, -, -, -, -⟩ :=
          cancel_prayer_success_inv st caller p hp hok
        exact ⟨a1, a2, a3⟩
      · rintro ⟨hrq, h1, h2⟩
        exact hchar hrq h1 h2
    · intro hrq
      unfold cancel_prayer
      simp only [hp, if_neg hrq]
    · intro hrq h1
      unfold cancel_prayer
      simp only [hp, if_pos hrq, if_neg h1]
    · intro hrq h1 h2
      unfold cancel_prayer
      simp only [hp, if_pos hrq, if_pos h1, if_neg h2]
    · intro hok
      obtain ⟨-, -, -, a4, -, -, a7, a8⟩ :=
        cancel_prayer_success_inv st caller p hp hok
      refine ⟨?_, a4⟩
      by_cases hr : 0 < p.reward_lamports
      · obtain ⟨-, -, hb⟩ := a7 hr
        rw [hb]
        simp [credit]
      · have hr0 : p.reward_lamports = 0 := by omega
        obtain ⟨-, hb⟩ := a8 hr0
        rw [hb, hr0]
        omega
  · intro st0 caller pt ch reward ttl mc now hpok hcok
    obtain ⟨-, -, -, -, -, hpq, hescrow, -, -, hbpos, hbzero⟩ :=
      post_prayer_success_inv st0 caller pt ch reward ttl mc now hpok
    obtain ⟨-, -, -, -, -, -, a7, a8⟩ :=
      cancel_prayer_success_inv _ caller _ hpq hcok
    by_cases hr : 0 < reward
    · obtain ⟨hble, hbal1⟩ := hbpos hr
      obtain ⟨-, -, hb⟩ := a7 (by simpa using hr)
      rw [hb, hbal1]
      simp [credit]
      omega
    · have hr0 : reward = 0 := by omega
      obtain ⟨-, hb⟩ := a8 (by simpa using hr0)
      rw [hb, hbzero hr0]

/-- Witness for C6: posting with reward 100 and immediately cancelling
returns the requester to the original balance of 1000. -/
theorem cancel_prayer_characterization_witness :
    (post_prayer witStReg 1 .Knowledge [] 100 1000 3 0).1 = none ∧
    (cancel_prayer (post_prayer witStReg 1 .Knowledge [] 100 1000 3 0).2 1).1 =
      none ∧
    (cancel_prayer (post_prayer witStReg 1 .Knowledge [] 100 1000 3 0).2
      1).2.balances 1 = witStReg.balances 1 := by
  refine ⟨by decide, by decide, ?_⟩
  exact cancel_prayer_characterization.2 witStReg 1 .Knowledge [] 100 1000 3 0
    (by decide) (by decide)

/-- C7: on an invariant-respecting ledger whose prayer is `Open` or
`Active` and holds the targeted claim, `unclaim_prayer` succeeds exactly
when the caller is the claim's claimer (at any time) or more than
`CLAIM_TIMEOUT_SECONDS` (3600s) have passed since `claimed_at` (any
caller); a non-claimer before the timeout always fails with `NotClaimer`;
on success the claim record is destroyed and `num_claimers` drops by one. -/
theorem unclaim_prayer_characterization
    (st : St) (p : Prayer) (cl : Claim) (caller c : Pubkey) (now : Int)
    (hInv : Inv st) (hp : st.prayer = some p)
    (hst : p.status = .Open ∨ p.status = .Active)
    (hcl : findClaim st p.id c = some cl) :
    ((unclaim_prayer st caller c now).1 = none ↔
      cl.claimer = caller ∨ cl.claimed_at + CLAIM_TIMEOUT_SECONDS < now) ∧
    (cl.claimer ≠ caller → ¬ (cl.claimed_at + CLAIM_TIMEOUT_SECONDS < now) →
      unclaim_prayer st caller c now = (some (.prog .NotClaimer), st)) ∧
    ((unclaim_prayer st caller c now).1 = none →
      1 ≤ p.num_claimers ∧
      (∀ p1, (unclaim_prayer st caller c now).2.prayer = some p1 →
        p1.num_claimers = p.num_claimers - 1) ∧
      (unclaim_prayer st caller c now).2.claims =
        st.claims.eraseP (fun x => x.prayer_id == p.id && x.claimer == c)) := by
  have hCf : st.claims.find?
      (fun x => x.prayer_id == p.id && x.claimer == c) = some cl := hcl
  have hmem : cl ∈ st.claims := List.mem_of_find?_eq_some hCf
  have hpred := List.find?_some hCf
  obtain ⟨-, h2⟩ := hInv
  obtain ⟨-, -, -, -, -, -, g7, -⟩ := h2 p hp
  have hone : 1 ≤ p.num_claimers := by
    rw [← g7]
    have hmem2 : cl ∈ claimsFor st p.id := by
      apply List.mem_filter.mpr
      refine ⟨hmem, ?_⟩
      simp only [Bool.and_eq_true] at hpred
      exact hpred.1
    have := List.length_pos_of_mem hmem2
    omega
  have hfwd : (cl.claimer = caller ∨ cl.claimed_at + CLAIM_TIMEOUT_SECONDS < now) →
      (unclaim_prayer st caller c now).1 = none := by
    intro hcond
    unfold unclaim_prayer
    simp only [hp, hcl, if_pos hst, if_pos hcond, if_pos hone]
  refine ⟨⟨?_, hfwd⟩, ?_, ?_⟩
  · intro hok
    obtain ⟨-, hcond, -, -, -, -, -, -⟩ :=
      unclaim_prayer_success_inv st caller c now p cl hp hcl hok
    exact hcond
  · intro h1 h2
    unfold unclaim_prayer
    simp only [hp, hcl, if_pos hst]
    rw [if_neg (by
      rintro (hx | hx)
      · exact h1 hx
      · exact h2 hx)]
  · intro hok
    obtain ⟨-, -, hone2, hpq, hcl2, -, -, -⟩ :=
      unclaim_prayer_success_inv st caller c now p cl hp hcl hok
    refine ⟨hone2, ?_, hcl2⟩
    intro p1 hp1
    rw [hpq] at hp1
    injection hp1 with hp1
    subst hp1
    by_cases hact : p.status = PrayerStatus.Active
    · rw [if_pos hact]
    · rw [if_neg hact]

/-- Witness for C7: in the one-claim scenario (claimed at time 1 by agent
2), a non-claimer unclaim at time 100 fails `NotClaimer`, the same
non-claimer succeeds at time 3602, and the claimer succeeds at time 100. -/
theorem unclaim_prayer_characterization_witness :
    (unclaim_prayer witStOneClaim 3 2 100).1 = some (.prog .NotClaimer) ∧
    (unclaim_prayer witStOneClaim 3 2 3602).1 = none ∧
    (unclaim_prayer witStOneClaim 2 2 100).1 = none := by
  have hInv : Inv witStOneClaim := inv_execAll witSt0 (witOps.take 6) Inv_witSt0
  have h1 := unclaim_prayer_characterization witStOneClaim witPrayerOne witClaim2
    3 2 100 hInv (by decide) (by decide) (by decide)
  have h2 := unclaim_prayer_characterization witStOneClaim witPrayerOne witClaim2
    3 2 3602 hInv (by decide) (by decide) (by decide)
  have h3 := unclaim_prayer_characterization witStOneClaim witPrayerOne witClaim2
    2 2 100 hInv (by decide) (by decide) (by decide)
  refine ⟨?_, ?_, ?_⟩
  · rw [(h1.2.1 (by decide) (by decide))]
  · exact h2.1.mpr (by decide)
  · exact h3.1.mpr (by decide)

/-- C8 counterexample: the encryption key parameter of `register_agent` is
mandatory; the only encoding of "no key supplied" — the all-zero key — is
rejected with `InvalidEncryptionKey` even though name and skills are within
bounds and the wallet is fresh, so a registration without a public key can
never succeed, contrary to the claim. -/
theorem register_agent_zero_key_rejected :
    ("x" : String).utf8ByteSize ≤ 32 ∧
    ("y" : String).utf8ByteSize ≤ 256 ∧
    findAgent witSt0 7 = none ∧
    (register_agent witSt0 7 "x" "y" zeroKey 0).1 =
      some (.prog .InvalidEncryptionKey) ∧
    (register_agent witSt0 7 "x" "y" zeroKey 0).1 ≠ none := by
  decide

/-- C8 (amended): `register_agent` requires a (mandatory) encryption key:
with a fresh wallet it succeeds exactly when the name is within 32 bytes,
the skills within 256 bytes and the supplied key is not all-zero; it fails
`NameTooLong` / `SkillsTooLong` / `InvalidEncryptionKey` on the respective
violations (checked in that order), on success appends exactly one Agent
keyed by the owner wallet, and a second registration for a wallet that
already has an Agent fails. -/
theorem register_agent_characterization
    (st : St) (w : Pubkey) (n s : String) (k : List Nat) (t : Int)
    (hfresh : findAgent st w = none)
    (hcnt : st.chain.total_agents + 1 ≤ U64_MAX) :
    ((register_agent st w n s k t).1 = none ↔
      n.utf8ByteSize ≤ 32 ∧ s.utf8ByteSize ≤ 256 ∧ k ≠ zeroKey) ∧
    (32 < n.utf8ByteSize →
      register_agent st w n s k t = (some (.prog .NameTooLong), st)) ∧
    (n.utf8ByteSize ≤ 32 → 256 < s.utf8ByteSize →
      register_agent st w n s k t = (some (.prog .SkillsTooLong), st)) ∧
    (n.utf8ByteSize ≤ 32 → s.utf8ByteSize ≤ 256 → k = zeroKey →
      register_agent st w n s k t = (some (.prog .InvalidEncryptionKey), st)) ∧
    ((register_agent st w n s k t).1 = none →
      ∃ a, (register_agent st w n s k t).2.agents = st.agents ++ [a] ∧
        a.wallet = w) ∧
    (∀ (st2 : St) (a0 : Agent), findAgent st2 w = some a0 →
      (register_agent st2 w n s k t).1 = some .accountInUse) := by
  refine ⟨⟨?_, ?_⟩, ?_, ?_, ?_, ?_, ?_⟩
  · intro hok
    obtain ⟨-, b1, b2, b3, -, -, -, -, -, -⟩ :=
      register_agent_success_inv st w n s k t hok
    exact ⟨b1, b2, b3⟩
  · rintro ⟨b1, b2, b3⟩
    unfold register_agent
    have hca : checked_add_u64 st.chain.total_agents 1 =
        some (st.chain.total_agents + 1) := by
      unfold checked_add_u64
      rw [if_pos hcnt]
    simp only [hfresh, if_pos (show n.utf8ByteSize ≤ Agent.MAX_NAME from b1),
      if_pos (show s.utf8ByteSize ≤ Agent.MAX_SKILLS from b2),
      if_pos b3, hca]
  · intro hn
    unfold register_agent
    rw [hfresh]
    rw [if_neg (show ¬ n.utf8ByteSize ≤ Agent.MAX_NAME by
      simp only [Agent.MAX_NAME]
      omega)]
  · intro hn hs
    unfold register_agent
    rw [hfresh]
    rw [if_pos (show n.utf8ByteSize ≤ Agent.MAX_NAME from hn),
      if_neg (show ¬ s.utf8ByteSize ≤ Agent.MAX_SKILLS by
        simp only [Agent.MAX_SKILLS]
        omega)]
  · intro hn hs hk
    unfold register_agent
    rw [hfresh]
    rw [if_pos (show n.utf8ByteSize ≤ Agent.MAX_NAME from hn),
      if_pos (show s.utf8ByteSize ≤ Agent.MAX_SKILLS from hs),
      if_neg (show ¬ k ≠ zeroKey by simp [hk])]
  · intro hok
    obtain ⟨-, -, -, -, ha, -, -, -, -, -⟩ :=
      register_agent_success_inv st w n s k t hok
    exact ⟨_, ha, rfl⟩
  · intro st2 a0 h0
    unfold register_agent
    rw [h0]

/-- Witness for C8: registering wallet 7 with a proper key succeeds, with
the all-zero key fails, and re-registering wallet 1 (already registered)
fails. -/
theorem register_agent_characterization_witness :
    (register_agent witSt0 7 "n" "s" (List.replicate 32 9) 0).1 = none ∧
    (register_agent witSt0 7 "n" "s" zeroKey 0).1 =
      some (.prog .InvalidEncryptionKey) ∧
    (register_agent witStReg 1 "n" "s" (List.replicate 32 9) 0).1 =
      some .accountInUse := by
  have h := register_agent_characterization witSt0 7 "n" "s"
    (List.replicate 32 9) 0 (by decide) (by decide)
  have h2 := register_agent_characterization witSt0 7 "n" "s" zeroKey 0
    (by decide) (by decide)
  refine ⟨h.1.mpr (by decide), ?_, ?_⟩
  · rw [h2.2.2.2.1 (by decide) (by decide) (by decide)]
  · exact (register_agent_characterization witSt0 1 "n" "s"
      (List.replicate 32 9) 0 (by decide) (by decide)).2.2.2.2.2 witStReg
      ((findAgent witStReg 1).getD witAgent2) (by decide)

/-- One committed operation preserves the `Frozen` facts of a prayer whose
status has moved past `Active`. -/
theorem frozen_exec (pid n0 : Nat) (cs : List Claim) (st : St) (op : Op)
    (h : Frozen pid n0 cs st) : Frozen pid n0 cs (exec st op) := by
  obtain ⟨hInv, hpid, hcs, hpast⟩ := h
  cases hok : (step st op).1 with
  | some e =>
    rw [exec_eq_of_err st op e hok]
    exact ⟨hInv, hpid, hcs, hpast⟩
  | none =>
    have hInv2 := inv_exec st op hInv
    rw [exec_eq_snd_of_ok st op hok] at hInv2 ⊢
    cases op with
    | register w n s k t =>
      rw [show step st (.register w n s k t) = register_agent st w n s k t
        from rfl] at hok hInv2 ⊢
      obtain ⟨-, -, -, -, -, hpq, hcl, -, -, hch⟩ :=
        register_agent_success_inv st w n s k t hok
      refine ⟨hInv2, by rw [hch]; exact hpid, ?_, ?_⟩
      · simp only [claimsFor, hcl]
        simpa [claimsFor] using hcs
      · intro p' hp' hid
        rw [hpq] at hp'
        exact hpast p' hp' hid
    | post rq pt ch rw0 ttl mc t =>
      rw [show step st (.post rq pt ch rw0 ttl mc t) =
        post_prayer st rq pt ch rw0 ttl mc t from rfl] at hok hInv2 ⊢
      obtain ⟨-, -, -, -, -, hpq, -, hcl, hch, -, -⟩ :=
        post_prayer_success_inv st rq pt ch rw0 ttl mc t hok
      refine ⟨hInv2, by rw [hch]; omega, ?_, ?_⟩
      · simp only [claimsFor, hcl]
        simpa [claimsFor] using hcs
      · intro p' hp' hid
        rw [hpq] at hp'
        injection hp' with hp'
        subst hp'
        exfalso
        have : st.chain.total_prayers = pid := hid
        omega
    | claim c t =>
      rw [show step st (.claim c t) = claim_prayer st c t from rfl]
        at hok hInv2 ⊢
      cases hP : st.prayer with
      | none =>
        exfalso
        have hcontra : (claim_prayer st c t).1 = some .accountNotFound := by
          unfold claim_prayer
          rw [hP]
        rw [hcontra] at hok
        cases hok
      | some p =>
        obtain ⟨-, hopen, -, -, hpq, hcl, -, -, hch⟩ :=
          claim_prayer_success_inv st c t p hP hok
        by_cases hid : p.id = pid
        · obtain ⟨hpst, -⟩ := hpast p hP hid
          exfalso
          rcases hpst with hx | hx | hx <;> rw [hopen] at hx <;> cases hx
        · refine ⟨hInv2, by rw [hch]; exact hpid, ?_, ?_⟩
          · simp only [claimsFor, hcl, List.filter_append]
            have hnew : (List.filter (fun x => x.prayer_id == pid)
                [{ prayer_id := p.id, claimer := c, content_delivered := false
                   claimed_at := t }] : List Claim) = [] := by
              simp [hid]
            rw [hnew, List.append_nil]
            simpa [claimsFor] using hcs
          · intro p' hp' hid'
            rw [hpq] at hp'
            injection hp' with hp'
            subst hp'
            exact absurd (show p.id = pid from hid') hid
    | deliver rq c =>
      rw [show step st (.deliver rq c) = deliver_content st rq c from rfl]
        at hok hInv2 ⊢
      cases hP : st.prayer with
      | none =>
        exfalso
        have hcontra : (deliver_content st rq c).1 = some .accountNotFound := by
          unfold deliver_content
          rw [hP]
        rw [hcontra] at hok
        cases hok
      | some p =>
        obtain ⟨-, hOA, hpq, hcl, -, -, hch⟩ :=
          deliver_content_success_inv st rq c p hP hok
        by_cases hid : p.id = pid
        · obtain ⟨hpst, -⟩ := hpast p hP hid
          exfalso
          rcases hOA with hx | hx <;> rcases hpst with hy | hy | hy <;>
            rw [hx] at hy <;> cases hy
        · refine ⟨hInv2, by rw [hch]; exact hpid, ?_, ?_⟩
          · simp only [claimsFor, hcl]
            rw [filter_map_of_fix _ _
              (by
                intro x hx
                have hxid : x.prayer_id = pid := by simpa using hx
                have hcond : ¬ ((x.prayer_id == p.id && x.claimer == c) = true) := by
                  simp only [Bool.and_eq_true, beq_iff_eq, not_and]
                  intro hcon
                  exfalso
                  exact hid (by omega)
                rw [if_neg hcond])
              (by
                intro x
                by_cases hcond : x.prayer_id == p.id && x.claimer == c <;>
                  simp [hcond])]
            simpa [claimsFor] using hcs
          · intro p' hp' hid'
            rw [hpq, hP] at hp'
            injection hp' with hp'
            subst hp'
            exact hpast p hP hid'
    | answer a ah t =>
      rw [show step st (.answer a ah t) = answer_prayer st a ah t from rfl]
        at hok hInv2 ⊢
      cases hP : st.prayer with
      | none =>
        exfalso
        have hcontra : (answer_prayer st a ah t).1 = some .accountNotFound := by
          unfold answer_prayer
          rw [hP]
        rw [hcontra] at hok
        cases hok
      | some p =>
        obtain ⟨-, hOA, -, hpq, hcl, -, -, hch⟩ :=
          answer_prayer_success_inv st a ah t p hP hok
        by_cases hid : p.id = pid
        · obtain ⟨hpst, -⟩ := hpast p hP hid
          exfalso
          rcases hOA with hx | hx <;> rcases hpst with hy | hy | hy <;>
            rw [hx] at hy <;> cases hy
        · refine ⟨hInv2, by rw [hch]; exact hpid, ?_, ?_⟩
          · simp only [claimsFor, hcl]
            simpa [claimsFor] using hcs
          · intro p' hp' hid'
            rw [hpq] at hp'
            injection hp' with hp'
            subst hp'
            exact absurd (show p.id = pid from hid') hid
    | confirm rq accts =>
      rw [show step st (.confirm rq accts) = confirm_prayer st rq accts from rfl]
        at hok hInv2 ⊢
      cases hP : st.prayer with
      | none =>
        exfalso
        have hcontra : (confirm_prayer st rq accts).1 = some .accountNotFound := by
          unfold confirm_prayer
          rw [hP]
        rw [hcontra] at hok
        cases hok
      | some p =>
        obtain ⟨-, -, -, -, -, hpq, hcl, hch⟩ :=
          confirm_prayer_success_inv st rq accts p hP hok
        refine ⟨hInv2, by rw [hch]; exact hpid, ?_, ?_⟩
        · simp only [claimsFor, hcl]
          simpa [claimsFor] using hcs
        · intro p' hp' hid'
          rw [hpq] at hp'
          injection hp' with hp'
          subst hp'
          obtain ⟨-, hnum⟩ := hpast p hP (show p.id = pid from hid')
          exact ⟨Or.inr (Or.inl rfl), hnum⟩
    | cancel rq =>
      rw [show step st (.cancel rq) = cancel_prayer st rq from rfl]
        at hok hInv2 ⊢
      cases hP : st.prayer with
      | none =>
        exfalso
        have hcontra : (cancel_prayer st rq).1 = some .accountNotFound := by
          unfold cancel_prayer
          rw [hP]
        rw [hcontra] at hok
        cases hok
      | some p =>
        obtain ⟨-, hopen, -, hpq, hcl, hch, -, -⟩ :=
          cancel_prayer_success_inv st rq p hP hok
        by_cases hid : p.id = pid
        · obtain ⟨hpst, -⟩ := hpast p hP hid
          exfalso
          rcases hpst with hy | hy | hy <;> rw [hopen] at hy <;> cases hy
        · refine ⟨hInv2, by rw [hch]; exact hpid, ?_, ?_⟩
          · simp only [claimsFor, hcl]
            simpa [claimsFor] using hcs
          · intro p' hp' hid'
            rw [hpq] at hp'
            injection hp' with hp'
            subst hp'
            exact absurd (show p.id = pid from hid') hid
    | unclaim caller c t =>
      rw [show step st (.unclaim caller c t) = unclaim_prayer st caller c t
        from rfl] at hok hInv2 ⊢
      cases hP : st.prayer with
      | none =>
        exfalso
        have hcontra : (unclaim_prayer st caller c t).1 =
            some .accountNotFound := by
          unfold unclaim_prayer
          rw [hP]
        rw [hcontra] at hok
        cases hok
      | some p =>
        cases hC : findClaim st p.id c with
        | none =>
          exfalso
          have hcontra : (unclaim_prayer st caller c t).1 =
              some .accountNotFound := by
            unfold unclaim_prayer
            simp [hP, hC]
          rw [hcontra] at hok
          cases hok
        | some cl =>
          obtain ⟨hOA, -, -, hpq, hcl2, -, -, hch⟩ :=
            unclaim_prayer_success_inv st caller c t p cl hP hC hok
          by_cases hid : p.id = pid
          · obtain ⟨hpst, -⟩ := hpast p hP hid
            exfalso
            rcases hOA with hx | hx <;> rcases hpst with hy | hy | hy <;>
              rw [hx] at hy <;> cases hy
          · refine ⟨hInv2, by rw [hch]; exact hpid, ?_, ?_⟩
            · simp only [claimsFor, hcl2]
              rw [filter_eraseP_of_disjoint _ _
                (by
                  intro x hx
                  simp only [Bool.and_eq_true, beq_iff_eq] at hx
                  simp [hx.1, hid])]
              simpa [claimsFor] using hcs
            · intro p' hp' hid'
              rw [hpq] at hp'
              injection hp' with hp'
              subst hp'
              exfalso
              by_cases hact : p.status = PrayerStatus.Active
              · rw [if_pos hact] at hid'
                exact hid (by simpa using hid')
              · rw [if_neg hact] at hid'
                exact hid (by simpa using hid')
    | close rq t =>
      rw [show step st (.close rq t) = close_prayer st rq t from rfl]
        at hok hInv2 ⊢
      cases hP : st.prayer with
      | none =>
        exfalso
        have hcontra : (close_prayer st rq t).1 = some .accountNotFound := by
          unfold close_prayer
          rw [hP]
        rw [hcontra] at hok
        cases hok
      | some p =>
        obtain ⟨-, -, hpq, hcl, -, hch⟩ := close_prayer_success_inv st rq t p hP hok
        refine ⟨hInv2, by rw [hch]; exact hpid, ?_, ?_⟩
        · simp only [claimsFor, hcl]
          simpa [claimsFor] using hcs
        · intro p' hp'
          rw [hpq] at hp'
          cases hp'

/-- The `Frozen` facts persist along every sequence of operations. -/
theorem frozen_execAll (pid n0 : Nat) (cs : List Claim) (st : St)
    (ops : List Op) (h : Frozen pid n0 cs st) :
    Frozen pid n0 cs (execAll st ops) := by
  induction ops generalizing st with
  | nil => simpa [execAll] using h
  | cons op rest ih =>
    simpa [execAll] using ih (exec st op) (frozen_exec pid n0 cs st op h)

/-- C10: once a prayer's status leaves `Open`/`Active` (becomes `Fulfilled`,
`Confirmed` or `Cancelled`), `unclaim_prayer` on any of its claims always
fails with `NotClaimed`, so the claim records live at that moment are never
destroyed and the prayer's `num_claimers` never changes again, whatever
operations are committed afterwards. -/
theorem claims_frozen_past_active :
    (∀ (st : St) (p : Prayer) (cl : Claim) (caller c : Pubkey) (t : Int),
      st.prayer = some p →
      (p.status = .Fulfilled ∨ p.status = .Confirmed ∨ p.status = .Cancelled) →
      findClaim st p.id c = some cl →
      unclaim_prayer st caller c t = (some (.prog .NotClaimed), st)) ∧
    (∀ (st : St) (p : Prayer) (ops : List Op), Inv st →
      st.prayer = some p →
      (p.status = .Fulfilled ∨ p.status = .Confirmed ∨ p.status = .Cancelled) →
      claimsFor (execAll st ops) p.id = claimsFor st p.id ∧
      (∀ p1, (execAll st ops).prayer = some p1 → p1.id = p.id →
        p1.num_claimers = p.num_claimers)) := by
  constructor
  · intro st p cl caller c t hp hpast hcl
    have hnot : ¬(p.status = PrayerStatus.Open ∨
        p.status = PrayerStatus.Active) := by
      rintro (hx | hx) <;> rcases hpast with hy | hy | hy <;>
        rw [hx] at hy <;> cases hy
    unfold unclaim_prayer
    simp only [hp, hcl, if_neg hnot]
  · intro st p ops hInv hp hpast
    have hfr : Frozen p.id p.num_claimers (claimsFor st p.id) st := by
      refine ⟨hInv, ?_, rfl, ?_⟩
      · obtain ⟨-, h2⟩ := hInv
        exact (h2 p hp).1
      · intro p' hp' hid
        rw [hp] at hp'
        injection hp' with hp'
        subst hp'
        exact ⟨hpast, rfl⟩
    obtain ⟨-, -, hcs, hpast2⟩ :=
      frozen_execAll p.id p.num_claimers (claimsFor st p.id) st ops hfr
    exact ⟨hcs, fun p1 h1 h2 => (hpast2 p1 h1 h2).2⟩

/-- Witness for C10: unclaiming the fulfilled scenario prayer fails with
`NotClaimed`, and a follow-up operation barrage (a stale-sweep unclaim
attempt, a claim attempt and a cancel attempt) leaves its claim set
untouched. -/
theorem claims_frozen_past_active_witness :
    (unclaim_prayer witStFulfilled 2 2 100).1 = some (.prog .NotClaimed) ∧
    claimsFor (execAll witStFulfilled
        [.unclaim 2 2 9999, .claim 2 3, .cancel 1]) witPrayerF.id =
      claimsFor witStFulfilled witPrayerF.id := by
  constructor
  · rw [(claims_frozen_past_active.1 witStFulfilled witPrayerF
      ((findClaim witStFulfilled 0 2).getD witClaim2) 2 2 100
      (by decide) (by decide) (by decide))]
  · exact (claims_frozen_past_active.2 witStFulfilled witPrayerF
      [.unclaim 2 2 9999, .claim 2 3, .cancel 1]
      (inv_execAll witSt0 witOps Inv_witSt0) (by decide) (by decide)).1

end ChorusPrayers
